import Mathlib

/-! # gocqltable: struct/mapping translation and native-type inference

A shallow embedding of `reflect/reflect.go` (package `reflect` of the repository:
`StructToMap`, `MapToStruct`, `FieldsAndValues`, `getStructInfo`) and of `type.go`
(`cassaType`, `cassaTypeToString`, `stringTypeOf`, `ProcessValue`).

Go values are modelled by a type descriptor (`GoType`) and an untyped payload (`Data`).
A panic is an outcome of its own (`Except Panic`), distinct from a returned `error`.
The process-wide metadata cache `structMap` is explicit state that is passed in and
returned.  Go maps are association lists; `for k, v := range m` visits them in list
order, so a statement proved for every list covers every iteration order.
The functions of the Go libraries the code calls (`strings.ToLower`, `StructTag.Get`,
`Value.Convert`, `json.Marshal`, `json.Unmarshal`) are the fields of `Env`.
-/

set_option autoImplicit false

namespace gocqltable

/-! ## Types of the Go runtime -/

/-- The kinds of the reflection library. -/
inductive Kind
  | invalid | bool | int | int8 | int16 | int32 | int64
  | uint | uint8 | uint16 | uint32 | uint64 | uintptr
  | float32 | float64 | complex64 | complex128
  | array | chan | func | interface | map | ptr | slice | string | struct | rawPointer
  deriving DecidableEq, Repr

/-- The text `Kind.String()` prints. -/
def Kind.name : Kind → String
  | .invalid => "invalid" | .bool => "bool" | .int => "int" | .int8 => "int8"
  | .int16 => "int16" | .int32 => "int32" | .int64 => "int64" | .uint => "uint"
  | .uint8 => "uint8" | .uint16 => "uint16" | .uint32 => "uint32" | .uint64 => "uint64"
  | .uintptr => "uintptr" | .float32 => "float32" | .float64 => "float64"
  | .complex64 => "complex64" | .complex128 => "complex128" | .array => "array"
  | .chan => "chan" | .func => "func" | .interface => "interface" | .map => "map"
  | .ptr => "ptr" | .slice => "slice" | .string => "string" | .struct => "struct"
  | .rawPointer => "unsafe.Pointer"

/-- The predeclared basic types. -/
inductive Basic
  | bool | int | int8 | int16 | int32 | int64
  | uint | uint8 | uint16 | uint32 | uint64 | uintptr
  | float32 | float64 | complex64 | complex128 | string | rawPointer
  deriving DecidableEq, Repr

/-- Kind of a basic type. -/
def Basic.kind : Basic → Kind
  | .bool => .bool | .int => .int | .int8 => .int8 | .int16 => .int16 | .int32 => .int32
  | .int64 => .int64 | .uint => .uint | .uint8 => .uint8 | .uint16 => .uint16
  | .uint32 => .uint32 | .uint64 => .uint64 | .uintptr => .uintptr | .float32 => .float32
  | .float64 => .float64 | .complex64 => .complex64 | .complex128 => .complex128
  | .string => .string | .rawPointer => .rawPointer

/-- The text `Type.Name()` gives for a basic type. -/
def Basic.name : Basic → String
  | .rawPointer => "Pointer"
  | b => b.kind.name

mutual
/-- A Go type, as the reflection library identifies it (`reflect.Type`): two values
have the same type exactly when their descriptors are equal.  A defined type carries its
package, its name and its underlying type. -/
inductive GoType
  | basic (b : Basic)
  | named (pkg name : String) (under : GoType)
  | array (len : Nat) (elem : GoType)
  | slice (elem : GoType)
  | ptr (elem : GoType)
  | map (key elem : GoType)
  | chan (elem : GoType)
  | func (signature : String)
  | iface (methods : String)
  | struct (fields : FieldList)
  deriving DecidableEq, Repr
/-- The declared fields of a struct type, in declaration order: name, package path
(empty exactly for an exported field), raw tag text and type. -/
inductive FieldList
  | nil
  | cons (Name PkgPath Tag : String) (Typ : GoType) (rest : FieldList)
  deriving DecidableEq, Repr
end

/-- One declared field of a struct type (`reflect.StructField`). -/
structure StructField where
  Name : String
  PkgPath : String
  Tag : String
  Typ : GoType
  deriving DecidableEq, Repr

/-- The fields of a field list as a list. -/
def FieldList.toList : FieldList → List StructField
  | .nil => []
  | .cons n p t ty rest => ⟨n, p, t, ty⟩ :: rest.toList

/-- Builds a field list from a list of fields. -/
def FieldList.ofList : List StructField → FieldList
  | [] => .nil
  | f :: rest => .cons f.Name f.PkgPath f.Tag f.Typ (FieldList.ofList rest)

/-- `Type.Kind()`. -/
def GoType.kind : GoType → Kind
  | .basic b => b.kind
  | .named _ _ u => u.kind
  | .array _ _ => .array
  | .slice _ => .slice
  | .ptr _ => .ptr
  | .map _ _ => .map
  | .chan _ => .chan
  | .func _ => .func
  | .iface _ => .interface
  | .struct _ => .struct

/-- `Type.Name()`: the name of a basic or defined type, empty for every other type. -/
def GoType.name : GoType → String
  | .basic b => b.name
  | .named _ n _ => n
  | _ => ""

/-- Whether the type has a name (basic and defined types). -/
def GoType.hasName : GoType → Bool
  | .basic _ => true
  | .named _ _ _ => true
  | _ => false

/-- The underlying type. -/
def GoType.underlying : GoType → GoType
  | .named _ _ u => u.underlying
  | t => t

/-- `Type.Elem()`; `none` where the library panics (the type has no element type). -/
def GoType.elem : GoType → Option GoType
  | .named _ _ u => u.elem
  | .array _ e => some e
  | .slice e => some e
  | .ptr e => some e
  | .map _ e => some e
  | .chan e => some e
  | _ => none

/-- `Type.Key()`; `none` where the library panics (the type is not a map). -/
def GoType.key : GoType → Option GoType
  | .named _ _ u => u.key
  | .map k _ => some k
  | _ => none

/-- The declared fields of a struct type (`Type.Field(0)`, ..., `Type.Field(NumField()-1)`);
empty for a type that is not a struct. -/
def GoType.fields : GoType → List StructField
  | .named _ _ u => u.fields
  | .struct fs => fs.toList
  | _ => []

mutual
/-- `Type.String()`.  A defined type prints as `pkg.Name`, a basic type as its name, a
composite type structurally. -/
def GoType.str : GoType → String
  | .basic .rawPointer => "unsafe.Pointer"
  | .basic b => b.name
  | .named pkg n _ => pkg ++ "." ++ n
  | .array len e => "[" ++ toString len ++ "]" ++ e.str
  | .slice e => "[]" ++ e.str
  | .ptr e => "*" ++ e.str
  | .map k e => "map[" ++ k.str ++ "]" ++ e.str
  | .chan e => "chan " ++ e.str
  | .func sig => "func" ++ sig
  | .iface ms => "interface \x7b" ++ ms ++ "\x7d"
  | .struct fs => "struct \x7b" ++ fs.str ++ "\x7d"
/-- The field list inside the text of a struct type. -/
def FieldList.str : FieldList → String
  | .nil => ""
  | .cons n _ tag ty rest => " " ++ n ++ " " ++ ty.str ++
      (if tag = "" then "" else " " ++ tag.quote) ++
      (match rest with | .nil => " " | _ => ";") ++ rest.str
end

/-! ## Values -/

/-- The payload of a Go value, without its type. -/
inductive Data
  /-- The nil pointer, slice, map, channel, function or interface. -/
  | nil
  | bool (b : Bool)
  /-- A signed or unsigned integer of any width. -/
  | int (n : Int)
  /-- A floating-point number, by its bit pattern. -/
  | float (bits : Nat)
  | complex (re im : Nat)
  | str (s : String)
  /-- The elements of an array or of a non-nil slice, or the fields of a struct. -/
  | seq (xs : List Data)
  /-- The entries of a non-nil map. -/
  | assoc (kvs : List (Data × Data))
  /-- A non-nil pointer, by the value it points to. -/
  | ref (d : Data)
  /-- A non-nil interface, holding a value of dynamic type `t`. -/
  | boxed (t : GoType) (d : Data)
  /-- A channel, function or unsafe pointer. -/
  | handle (id : Nat)
  deriving Repr

/-- A Go value of a concrete (non-interface) dynamic type.  A value of static type
`interface{}` is an `Option Value`, `none` being the nil interface. -/
structure Value where
  typ : GoType
  data : Data
  deriving Repr

/-- Zero payload of a basic type. -/
def Basic.zero : Basic → Data
  | .bool => .bool false
  | .float32 => .float 0
  | .float64 => .float 0
  | .complex64 => .complex 0 0
  | .complex128 => .complex 0 0
  | .string => .str ""
  | .rawPointer => .nil
  | _ => .int 0

mutual
/-- The zero value of a type. -/
def GoType.zero : GoType → Data
  | .basic b => b.zero
  | .named _ _ u => u.zero
  | .array len e => .seq (List.replicate len e.zero)
  | .slice _ => .nil
  | .ptr _ => .nil
  | .map _ _ => .nil
  | .chan _ => .nil
  | .func _ => .nil
  | .iface _ => .nil
  | .struct fs => .seq fs.zeros
/-- The zero values of the fields of a struct type. -/
def FieldList.zeros : FieldList → List Data
  | .nil => []
  | .cons _ _ _ ty rest => ty.zero :: rest.zeros
end

/-- What a running call can raise instead of returning. -/
inductive Panic
  /-- The `panic(msg)` of `getStructInfo`, by the two arguments of its message:
  the key that is duplicated and the struct type. -/
  | duplicatedKey (key : String) (st : GoType)
  /-- A method called on the nil `reflect.Type` that `reflect.TypeOf(nil)` returns. -/
  | nilDereference
  /-- The failing type assertion `v.([]string)`. -/
  | typeAssertion (t : GoType)
  /-- A panic raised inside the reflection library, by the call that raised it. -/
  | reflection (call : String)
  deriving DecidableEq, Repr

/-- A reflected value (`reflect.Value`); the zero `reflect.Value` is `none` of
`Option RValue`.  `addr` is the addressable flag, `ro` the read-only flag of a value
reached through an unexported field. -/
structure RValue where
  typ : GoType
  data : Data
  addr : Bool
  ro : Bool
  deriving Repr

/-- `reflect.ValueOf(i)`. -/
def ValueOf (i : Option Value) : Option RValue :=
  i.map fun x => ⟨x.typ, x.data, false, false⟩

/-- `reflect.TypeOf(i)`; `none` is the nil type of the nil interface. -/
def TypeOf (i : Option Value) : Option GoType :=
  i.map fun x => x.typ

/-- `Value.Kind()`; the zero value has kind `Invalid`. -/
def RValue.kind : Option RValue → Kind
  | none => .invalid
  | some v => v.typ.kind

/-- `reflect.Indirect(v)`: the value a pointer points to (the zero value for a nil
pointer), and `v` itself when it is not a pointer. -/
def Indirect : Option RValue → Option RValue
  | none => none
  | some v =>
    if v.typ.kind ≠ .ptr then some v
    else match v.data, v.typ.elem with
      | .ref d, some t => some ⟨t, d, true, v.ro⟩
      | _, _ => none

/-- The payload of field `i` of a struct payload. -/
def Data.field (d : Data) (i : Nat) : Data :=
  match d with
  | .seq xs => xs.getD i .nil
  | _ => .nil

/-- The struct payload with field `i` replaced. -/
def Data.setField (d : Data) (i : Nat) (x : Data) : Data :=
  match d with
  | .seq xs => .seq (xs.set i x)
  | other => other

/-- `Value.Field(i)`: the library panics unless the value is a struct and `i` is in
range; the field is read-only when the struct is or when the field is unexported. -/
def RValue.Field (v : RValue) (i : Nat) : Except Panic RValue :=
  if v.typ.kind ≠ .struct then .error (.reflection "Value.Field")
  else match v.typ.fields[i]? with
    | none => .error (.reflection "Value.Field")
    | some f => .ok ⟨f.Typ, v.data.field i, v.addr, v.ro || decide (f.PkgPath ≠ "")⟩

/-- `Value.CanInterface()`. -/
def RValue.CanInterface (v : RValue) : Bool := !v.ro

/-- The interface value holding the payload `d` of a location of type `t`: the value
itself, or the value it holds when `t` is an interface type. -/
def interfaceOf (t : GoType) (d : Data) : Option Value :=
  if t.kind = .interface then
    match d with
    | .boxed dyn held => some ⟨dyn, held⟩
    | _ => none
  else some ⟨t, d⟩

/-- `Value.Interface()`: panics on a read-only value. -/
def RValue.Interface (v : RValue) : Except Panic (Option Value) :=
  if v.ro then .error (.reflection "Value.Interface")
  else .ok (interfaceOf v.typ v.data)

/-- `Value.CanSet()`. -/
def RValue.CanSet (v : RValue) : Bool := v.addr && !v.ro

/-! ## Library functions taken as given -/

/-- The library functions the repository's code calls: their definitions lie outside
the repository, so they are parameters here, and what is proved holds for whatever
functions they are. -/
structure Env where
  /-- `Value.Convert(t)` of the reflection library; `none` where it panics. -/
  Convert : Value → GoType → Option Value
  /-- Whether a type implements an interface type (the method-set check of the
  reflection library; method sets are not part of `GoType`). -/
  implements : GoType → GoType → Bool
  /-- `json.Unmarshal([]byte(str), p)` with `p` a pointer to a fresh value of the given
  type: the decoded value, or `none` when it returns an error. -/
  Unmarshal : String → GoType → Option Data
  /-- `json.Marshal(i)`: the JSON text, or `none` when it returns an error. -/
  Marshal : Option Value → Option String
  /-- `strings.ToLower(s)`: the text with its Unicode letters mapped to lower case. -/
  ToLower : String → String
  /-- `tag.Get(key)` of `reflect.StructTag`, as `Get tag key`: the value of `key` in a
  conventionally formatted tag, unquoted by `strconv.Unquote`; the empty string when
  there is none. -/
  Get : String → String → String

/-- Assignability without conversion (`directlyAssignable` of the reflection
library): identical types, or identical underlying types when one of them has no name.
Channel directions are not modelled. -/
def directlyAssignable (T V : GoType) : Bool :=
  if T = V then true
  else if (T.hasName && V.hasName) || decide (T.kind ≠ V.kind) then false
  else decide (T.underlying = V.underlying)

/-- The payload `x` has once assigned to a location of type `dst` (`Value.assignTo`);
the library panics when `x` is not assignable to `dst`. -/
def assignTo (env : Env) (dst : GoType) (x : RValue) : Except Panic Data :=
  if directlyAssignable dst x.typ then .ok x.data
  else if dst.kind = .interface ∧ env.implements dst x.typ = true then
    if x.typ.kind = .interface then .ok x.data else .ok (.boxed x.typ x.data)
  else .error (.reflection "Value.assignTo")

/-- `v.Set(x)`: the new payload of the location `v`.  The library panics unless `v`
can be set, and when `x` is the zero value, is read-only or is not assignable. -/
def RValue.Set (env : Env) (v : RValue) (x : Option RValue) : Except Panic Data :=
  if !v.CanSet then .error (.reflection "Value.Set")
  else match x with
    | none => .error (.reflection "Value.Set")
    | some x => if x.ro then .error (.reflection "Value.Set") else assignTo env v.typ x

/-- The elements of a slice or array payload (none for nil). -/
def Data.elems : Data → List Data
  | .seq xs => xs
  | _ => []

/-- The text of a string payload. -/
def Data.text : Data → String
  | .str s => s
  | _ => ""

/-! ## Strings -/

/-- `strings.Index(s, sep)` for a one-character separator: the byte offset of its first
occurrence in the UTF-8 text, or -1. -/
def Index (s : String) (sep : Char) : Int :=
  if sep ∈ s.data then
    (((s.data.takeWhile (fun c => decide (c ≠ sep))).map Char.utf8Size).sum : Nat)
  else -1

/-- The double quote. -/
def dquote : Char := Char.ofNat 34

/-- The backslash. -/
def backslash : Char := Char.ofNat 92

/-! ## Go maps as association lists -/

/-- The map read `m[k]`, with its found flag as `Option`. -/
def mapIndex {κ ν : Type} [DecidableEq κ] : List (κ × ν) → κ → Option ν
  | [], _ => none
  | (k, v) :: rest, x => if k = x then some v else mapIndex rest x

/-- The map write `m[k] = v`: the entry of `k` is replaced, or added. -/
def mapAssign {κ ν : Type} [DecidableEq κ] : List (κ × ν) → κ → ν → List (κ × ν)
  | [], x, y => [(x, y)]
  | (k, v) :: rest, x, y => if k = x then (k, y) :: rest else (k, v) :: mapAssign rest x y

/-! ## reflect/reflect.go -/

namespace reflect

/-- The exposed key of a field and the field's position in its struct. -/
structure fieldInfo where
  Key : String
  Num : Nat
  deriving DecidableEq, Repr

/-- The metadata of one struct type. -/
structure structInfo where
  /-- FieldsMap is used to access fields by their key. -/
  FieldsMap : List (String × fieldInfo)
  /-- FieldsList allows iteration over the fields in their struct order. -/
  FieldsList : List fieldInfo
  deriving DecidableEq, Repr

/-- The loop of `getStructInfo` (reflect.go:153-175), at field number `i` with the
fields from `i` on still to visit. -/
def getStructInfo.loop (env : Env) (st : GoType) :
    List StructField → Nat → List (String × fieldInfo) → List fieldInfo → Except Panic structInfo
  | [], _, fieldsMap, fieldsList => .ok ⟨fieldsMap, fieldsList⟩
  | field :: rest, i, fieldsMap, fieldsList =>
    let tag := env.Get field.Tag "cql"
    -- If there is no cql specific tag and there are no other tags
    -- set the cql tag to the whole field tag
    let tag := if tag = "" ∧ Index field.Tag ':' < 0 then field.Tag else tag
    let info : fieldInfo := ⟨if tag ≠ "" then tag else field.Name, i⟩
    match mapIndex fieldsMap (env.ToLower info.Key) with
    | some _ => .error (.duplicatedKey info.Key st)
    | none =>
      getStructInfo.loop env st rest (i + 1) (mapAssign fieldsMap (env.ToLower info.Key) info)
        (fieldsList ++ [info])

/-- `getStructInfo(v)`, with the cache `structMap` as state: the metadata (or the
panic) and the cache after the call. -/
def getStructInfo (env : Env) (structMap : List (GoType × structInfo)) (v : Option RValue) :
    Except Panic structInfo × List (GoType × structInfo) :=
  match Indirect v with
  | none => (.error (.reflection "Value.Type"), structMap)
  | some iv =>
    let st := iv.typ
    match mapIndex structMap st with
    | some sinfo => (.ok sinfo, structMap)
    | none =>
      if st.kind ≠ .struct then (.error (.reflection "Type.NumField"), structMap)
      else
        match getStructInfo.loop env st st.fields 0 [] [] with
        | .error p => (.error p, structMap)
        | .ok sinfo => (.ok sinfo, mapAssign structMap st sinfo)

/-- The loop of `StructToMap` (reflect.go:34-38). -/
def StructToMap.loop (structVal : RValue) :
    List fieldInfo → List (String × Option Value) → Except Panic (List (String × Option Value))
  | [], mapVal => .ok mapVal
  | field :: rest, mapVal =>
    match structVal.Field field.Num with
    | .error p => .error p
    | .ok f =>
      if f.CanInterface then
        match f.Interface with
        | .error p => .error p
        | .ok x => StructToMap.loop structVal rest (mapAssign mapVal field.Key x)
      else StructToMap.loop structVal rest mapVal

/-- `StructToMap(val)`: the mapping (`none` is the nil map) with the ok flag, or the
panic; and the cache after the call. -/
def StructToMap (env : Env) (structMap : List (GoType × structInfo)) (val : Option Value) :
    Except Panic (Option (List (String × Option Value)) × Bool) × List (GoType × structInfo) :=
  -- indirect so function works with both structs and pointers to them
  let structVal := Indirect (ValueOf val)
  if RValue.kind structVal ≠ .struct then (.ok (none, false), structMap)
  else
    match structVal, getStructInfo env structMap structVal with
    | some sv, (.ok sinfo, structMap2) =>
      match StructToMap.loop sv sinfo.FieldsList [] with
      | .error p => (.error p, structMap2)
      | .ok mapVal => (.ok (some mapVal, true), structMap2)
    | none, (.ok _, structMap2) => (.error (.reflection "Value.Field"), structMap2)
    | _, (.error p, structMap2) => (.error p, structMap2)

/-- The loop of `FieldsAndValues` (reflect.go:118-122). -/
def FieldsAndValues.loop (structVal : RValue) :
    List fieldInfo → Except Panic (List String × List (Option Value))
  | [] => .ok ([], [])
  | info :: rest =>
    match structVal.Field info.Num with
    | .error p => .error p
    | .ok field =>
      match field.Interface with
      | .error p => .error p
      | .ok x =>
        match FieldsAndValues.loop structVal rest with
        | .error p => .error p
        | .ok (fields, values) => .ok (info.Key :: fields, x :: values)

/-- `FieldsAndValues(val)`: the field names and the values (`none` is the nil slice)
with the ok flag, or the panic; and the cache after the call. -/
def FieldsAndValues (env : Env) (structMap : List (GoType × structInfo)) (val : Option Value) :
    Except Panic (Option (List String) × Option (List (Option Value)) × Bool) ×
      List (GoType × structInfo) :=
  -- indirect so function works with both structs and pointers to them
  let structVal := Indirect (ValueOf val)
  if RValue.kind structVal ≠ .struct then (.ok (none, none, false), structMap)
  else
    match structVal, getStructInfo env structMap structVal with
    | some sv, (.ok sinfo, structMap2) =>
      match FieldsAndValues.loop sv sinfo.FieldsList with
      | .error p => (.error p, structMap2)
      | .ok (fields, values) => (.ok (some fields, some values, true), structMap2)
    | none, (.ok _, structMap2) => (.error (.reflection "Value.Field"), structMap2)
    | _, (.error p, structMap2) => (.error p, structMap2)

/-- The errors `MapToStruct` returns, by the arguments of their message. -/
inductive Err
  /-- The "WTF are these types" error (reflect.go:87). -/
  | wtf (fieldKind valueKind : Kind)
  /-- The "Please handle these types" error (reflect.go:95). -/
  | pleaseHandle (fieldKind valueKind : Kind)
  deriving DecidableEq, Repr

/-- The loop at reflect.go:66-68: every element of the source slice, taken out of its
interface, converted to the target element type and appended. -/
def MapToStruct.convertAll (env : Env) (srcElem dstElem : GoType) :
    List Data → Except Panic (List Data)
  | [] => .ok []
  | d :: rest =>
    match interfaceOf srcElem d with
    | none => .error (.reflection "Value.Convert")
    | some x =>
      match env.Convert x dstElem with
      | none => .error (.reflection "Value.Convert")
      | some y =>
        match assignTo env dstElem ⟨y.typ, y.data, false, false⟩ with
        | .error p => .error p
        | .ok e =>
          match MapToStruct.convertAll env srcElem dstElem rest with
          | .error p => .error p
          | .ok tail => .ok (e :: tail)

/-- The loop at reflect.go:74-83: every string JSON-decoded into a fresh value of the
target element type, a string that fails to decode being skipped. -/
def MapToStruct.decodeAll (env : Env) (dstElem : GoType) : List Data → List Data
  | [] => []
  | str :: rest =>
    match env.Unmarshal str.text dstElem with
    | none => MapToStruct.decodeAll env dstElem rest
    | some tmp => tmp :: MapToStruct.decodeAll env dstElem rest

/-- The branches of the loop body of `MapToStruct` (reflect.go:58-96) for the field
`structField` and the value `v`: the error returned, if any, and the payload the field
is set to, if a branch sets it.  Every path through these lines calls a method on
`reflect.TypeOf(v)` (reflect.go:58, 86, 87), which panics for a nil `v`. -/
def MapToStruct.assign (env : Env) (structField : RValue) (v : Option Value) :
    Except Panic (Option Err × Option Data) :=
  let set (x : Except Panic Data) : Except Panic (Option Err × Option Data) :=
    match x with
    | .error p => .error p
    | .ok d => .ok (none, some d)
  match TypeOf v with
  | none => .error .nilDereference
  | some tv =>
    if structField.typ.kind.name = "slice" ∧ tv.kind.name = "slice" then
      match structField.typ.elem, tv.elem with
      | some fe, some ve =>
        if fe = ve then
          -- Slices of same type
          set (structField.Set env (ValueOf v))
        else if fe.kind.name = ve.kind.name then
          -- Slices of same kind
          match MapToStruct.convertAll env ve fe (v.elim [] fun x => x.data.elems) with
          | .error p => .error p
          | .ok result => set (structField.Set env (some ⟨structField.typ, .seq result, false, false⟩))
        else if ve.str = "string" then
          -- Slices of different kind
          if tv ≠ .slice (.basic .string) then .error (.typeAssertion tv)
          else
            let stringList := v.elim [] fun x => x.data.elems
            let result := MapToStruct.decodeAll env fe stringList
            set (structField.Set env (some ⟨structField.typ, .seq result, false, false⟩))
        else .ok (none, none)
      | _, _ => .error (.reflection "Type.Elem")
    else if structField.typ.name = "" ∨ tv.name = "" then
      .ok (some (.wtf structField.typ.kind tv.kind), none)
    else if structField.typ.name = tv.name then
      -- Field set naturally
      set (structField.Set env (ValueOf v))
    else if structField.typ.kind.name = tv.name then
      -- Field set with convert
      match v.bind fun x => env.Convert x structField.typ with
      | none => .error (.reflection "Value.Convert")
      | some y => set (structField.Set env (some ⟨y.typ, y.data, false, false⟩))
    else
      .ok (some (.pleaseHandle structField.typ.kind tv.kind), none)

/-- The body of the loop of `MapToStruct` for an entry whose key was found
(reflect.go:54-96): the error returned, if any, and the struct after the entry. -/
def MapToStruct.entry (env : Env) (val : RValue) (info : fieldInfo) (v : Option Value) :
    Except Panic (Option Err × RValue) :=
  match val.Field info.Num with
  | .error p => .error p
  | .ok structField =>
    match MapToStruct.assign env structField v with
    | .error p => .error p
    | .ok (err, none) => .ok (err, val)
    | .ok (err, some d) => .ok (err, { val with data := val.data.setField info.Num d })

/-- The loop of `MapToStruct` (reflect.go:50-101) over the entries of `m`. -/
def MapToStruct.loop (env : Env) (sinfo : structInfo) :
    RValue → List (String × Option Value) → Except Panic (Option Err × RValue)
  | val, [] => .ok (none, val)
  | val, (k, v) :: rest =>
    match mapIndex sinfo.FieldsMap k with
    | some info =>
      match MapToStruct.entry env val info v with
      | .error p => .error p
      | .ok (some err, val2) => .ok (some err, val2)
      | .ok (none, val2) => MapToStruct.loop env sinfo val2 rest
    | none =>
      -- field not found
      MapToStruct.loop env sinfo val rest

/-- The caller's `struc` once the struct it points to holds `val`; a `struc` that is
not a pointer is never changed. -/
def writeBack (struc : Option Value) (val : RValue) : Option Value :=
  match struc with
  | some ⟨t, .ref _⟩ => if t.kind = .ptr then some ⟨t, .ref val.data⟩ else struc
  | _ => struc

/-- `MapToStruct(m, struc)`: the error returned (`none` is nil) with `struc` after the
call, or the panic; and the cache after the call. -/
def MapToStruct (env : Env) (structMap : List (GoType × structInfo))
    (m : List (String × Option Value)) (struc : Option Value) :
    Except Panic (Option Err × Option Value) × List (GoType × structInfo) :=
  let val := Indirect (ValueOf struc)
  match val, getStructInfo env structMap val with
  | some rv, (.ok sinfo, structMap2) =>
    match MapToStruct.loop env sinfo rv m with
    | .error p => (.error p, structMap2)
    | .ok (err, rv2) => (.ok (err, writeBack struc rv2), structMap2)
  | none, (.ok _, structMap2) => (.error (.reflection "Value.Type"), structMap2)
  | _, (.error p, structMap2) => (.error p, structMap2)

end reflect

/-! ## type.go -/

namespace gocql

/-- Modelled from the spec: the native-type tags of the gocql driver (`gocql.Type`,
declared outside the repository), the eleven tags of the NativeType enumeration first,
then the driver's other tags. -/
inductive NativeType
  | TypeCustom | TypeInt | TypeBigInt | TypeVarchar | TypeFloat | TypeDouble
  | TypeBoolean | TypeTimestamp | TypeUUID | TypeBlob | TypeCounter
  | TypeAscii | TypeDecimal | TypeText | TypeVarint | TypeTimeUUID | TypeInet
  | TypeDate | TypeTime | TypeSmallInt | TypeTinyInt | TypeDuration
  | TypeList | TypeMap | TypeSet | TypeUDT | TypeTuple
  deriving DecidableEq, Repr

/-- Modelled from the spec: the text the driver's `Type.String()` gives for a tag, which
is what the verb `%v` prints: the canonical lowercase schema name. -/
def NativeType.String : NativeType → String
  | .TypeCustom => "custom" | .TypeInt => "int" | .TypeBigInt => "bigint"
  | .TypeVarchar => "varchar" | .TypeFloat => "float" | .TypeDouble => "double"
  | .TypeBoolean => "boolean" | .TypeTimestamp => "timestamp" | .TypeUUID => "uuid"
  | .TypeBlob => "blob" | .TypeCounter => "counter" | .TypeAscii => "ascii"
  | .TypeDecimal => "decimal" | .TypeText => "text" | .TypeVarint => "varint"
  | .TypeTimeUUID => "timeuuid" | .TypeInet => "inet" | .TypeDate => "date"
  | .TypeTime => "time" | .TypeSmallInt => "smallint" | .TypeTinyInt => "tinyint"
  | .TypeDuration => "duration" | .TypeList => "list" | .TypeMap => "map"
  | .TypeSet => "set" | .TypeUDT => "udt" | .TypeTuple => "tuple"

/-- The type `gocql.UUID`, an array of sixteen bytes. -/
def UUID : GoType := .named "gocql" "UUID" (.array 16 (.basic .uint8))

end gocql

/-- The type `time.Time` of the standard library. -/
def timeTime : GoType :=
  .named "time" "Time" (.struct
    (.cons "wall" "time" "" (.basic .uint64)
    (.cons "ext" "time" "" (.basic .int64)
    (.cons "loc" "time" "" (.ptr (.named "time" "Location" (.struct
      (.cons "name" "time" "" (.basic .string)
      (.cons "zone" "time" "" (.slice (.named "time" "zone" (.struct
        (.cons "name" "time" "" (.basic .string)
        (.cons "offset" "time" "" (.basic .int)
        (.cons "isDST" "time" "" (.basic .bool) .nil))))))
      (.cons "tx" "time" "" (.slice (.named "time" "zoneTrans" (.struct
        (.cons "when" "time" "" (.basic .int64)
        (.cons "index" "time" "" (.basic .uint8)
        (.cons "isstd" "time" "" (.basic .bool)
        (.cons "isutc" "time" "" (.basic .bool) .nil)))))))
      (.cons "extend" "time" "" (.basic .string)
      (.cons "cacheStart" "time" "" (.basic .int64)
      (.cons "cacheEnd" "time" "" (.basic .int64)
      (.cons "cacheZone" "time" "" (.ptr (.named "time" "zone" (.struct
        (.cons "name" "time" "" (.basic .string)
        (.cons "offset" "time" "" (.basic .int)
        (.cons "isDST" "time" "" (.basic .bool) .nil)))))) .nil))))))))))
    .nil))))

/-- The type `Counter` (type.go:13). -/
def Counter : GoType := .named "gocqltable" "Counter" (.basic .int)

/-- The errors `stringTypeOf`, `ProcessValue` and `cassaTypeToString` return, by the
arguments of their message. -/
inductive TypeError
  /-- "Unsupported map key or value type %T" (type.go:34, 78). -/
  | unsupportedMap (t : GoType)
  /-- "unkown cassandra type" (type.go:155). -/
  | unknownType
  /-- "Unsupported translation of value type %T" (type.go:65). -/
  | unsupportedTranslation
  /-- The error `json.Marshal` returned (type.go:85-86). -/
  | marshal
  deriving DecidableEq, Repr

/-- `reflect.Indirect(reflect.New(t)).Interface()`: the zero value of `t` as an
interface value, which is the nil interface when `t` is an interface type. -/
def zeroInterface (t : GoType) : Option Value :=
  if t.kind = .interface then none else some ⟨t, t.zero⟩

/-- `cassaType(i)` (type.go:91-130). -/
def cassaType (i : Option Value) : gocql.NativeType :=
  let t := TypeOf i
  if t = some (.basic .int) ∨ t = some (.basic .int32) then .TypeInt
  else if t = some (.basic .int64) then .TypeBigInt
  else if t = some (.basic .string) then .TypeVarchar
  else if t = some (.basic .float32) then .TypeFloat
  else if t = some (.basic .float64) then .TypeDouble
  else if t = some (.basic .bool) then .TypeBoolean
  else if t = some timeTime then .TypeTimestamp
  else if t = some gocql.UUID then .TypeUUID
  else if t = some (.slice (.basic .uint8)) then .TypeBlob
  else if t = some Counter then .TypeCounter
  else
    -- if the type is unknown, try to match its kind before declaring it as custom
    match RValue.kind (ValueOf i) with
    | .int | .int32 => .TypeInt
    | .int64 => .TypeBigInt
    | .string => .TypeVarchar
    | .float32 => .TypeFloat
    | .float64 => .TypeDouble
    | .bool => .TypeBoolean
    | _ => .TypeCustom

/-- `cassaTypeToString(t)` (type.go:132-157): the name and the error (`none` is nil). -/
def cassaTypeToString (t : gocql.NativeType) : String × Option TypeError :=
  match t with
  | .TypeInt => ("int", none)
  | .TypeBigInt => ("bigint", none)
  | .TypeVarchar => ("varchar", none)
  | .TypeFloat => ("float", none)
  | .TypeDouble => ("double", none)
  | .TypeBoolean => ("boolean", none)
  | .TypeTimestamp => ("timestamp", none)
  | .TypeUUID => ("uuid", none)
  | .TypeBlob => ("blob", none)
  | .TypeCounter => ("counter", none)
  | _ => ("", some .unknownType)

/-- `stringTypeOf(i)` (type.go:15-45): the type name and the error (`none` is nil). -/
def stringTypeOf (i : Option Value) : Except Panic (String × Option TypeError) :=
  let isByteSlice := decide (TypeOf i = some (.slice (.basic .uint8)))
  let scalar : Except Panic (String × Option TypeError) :=
    let ct := cassaType i
    -- the typeCustom will be converted and stored as a json string
    let ct := if ct = .TypeCustom then .TypeVarchar else ct
    .ok (cassaTypeToString ct)
  match i with
  | none => scalar
  | some x =>
    if !isByteSlice then
      -- Check if we found a higher kinded type
      match RValue.kind (ValueOf i) with
      | .slice =>
        match x.typ.elem with
        | none => .error (.reflection "Type.Elem")
        | some elemT =>
          let elemVal := zeroInterface elemT
          let ct := cassaType elemVal
          -- the typeCustom will be converted and stored as a json string so here it
          -- will be a list of json strings
          let ct := if ct = .TypeCustom then .TypeVarchar else ct
          .ok ("list<" ++ ct.String ++ ">", none)
      | .map =>
        match x.typ.key, x.typ.elem with
        | some keyT, some elemT =>
          let keyVal := zeroInterface keyT
          let elemVal := zeroInterface elemT
          let keyCt := cassaType keyVal
          let elemCt := cassaType elemVal
          if keyCt = .TypeCustom ∨ elemCt = .TypeCustom then
            .ok ("", some (.unsupportedMap x.typ))
          else .ok ("map<" ++ keyCt.String ++ ", " ++ elemCt.String ++ ">", none)
        | none, _ => .error (.reflection "Type.Key")
        | _, none => .error (.reflection "Type.Elem")
      | _ => scalar
    else scalar

/-- The loop of `ProcessValue` (type.go:62-68): the JSON text of every element, or
`none` at the first element `json.Marshal` fails on. -/
def ProcessValue.loop (env : Env) (elemT : GoType) : List Data → Option (List Data)
  | [] => some []
  | d :: rest =>
    match env.Marshal (interfaceOf elemT d) with
    | none => none
    | some txt => (ProcessValue.loop env elemT rest).map (Data.str txt :: ·)

/-- `ProcessValue(i)` (type.go:48-89): take the input parameter and convert it to a
json string or a slice of json strings; the value and the error (`none` is nil). -/
def ProcessValue (env : Env) (i : Option Value) :
    Except Panic (Option Value × Option TypeError) :=
  let emptyString : Option Value := some ⟨.basic .string, .str ""⟩
  match i with
  | none => .ok (none, none)
  | some x =>
    let isByteSlice := decide (TypeOf i = some (.slice (.basic .uint8)))
    let scalar : Except Panic (Option Value × Option TypeError) :=
      let ct := cassaType i
      if ct = .TypeCustom then
        match env.Marshal i with
        | none => .ok (emptyString, some .marshal)
        | some res => .ok (some ⟨.basic .string, .str res⟩, none)
      else .ok (i, none)
    if !isByteSlice then
      -- Check if we found a higher kinded type
      match RValue.kind (ValueOf i) with
      | .slice =>
        match x.typ.elem with
        | none => .error (.reflection "Type.Elem")
        | some elemT =>
          let elemVal := zeroInterface elemT
          let ct := cassaType elemVal
          if ct = .TypeCustom then
            match ProcessValue.loop env elemT x.data.elems with
            | none => .ok (emptyString, some .unsupportedTranslation)
            | some result => .ok (some ⟨.slice (.basic .string), .seq result⟩, none)
          else .ok (i, none)
      | .map =>
        match x.typ.key, x.typ.elem with
        | some keyT, some elemT =>
          let keyCt := cassaType (zeroInterface keyT)
          let elemCt := cassaType (zeroInterface elemT)
          if keyCt = .TypeCustom ∨ elemCt = .TypeCustom then
            .ok (emptyString, some (.unsupportedMap x.typ))
          else .ok (i, none)
        | none, _ => .error (.reflection "Type.Key")
        | _, none => .error (.reflection "Type.Elem")
      | _ => scalar
    else scalar

/-! ## Definitions used to state the properties -/

namespace reflect

/-- The exposed key of a field as the documentation words it: the value of the `cql`
tag if it is non-empty; otherwise the whole raw tag text if that text is non-empty and
contains no colon; otherwise the declared name of the field. -/
def exposedKey (env : Env) (f : StructField) : String :=
  if env.Get f.Tag "cql" ≠ "" then env.Get f.Tag "cql"
  else if f.Tag ≠ "" ∧ ':' ∉ f.Tag.data then f.Tag
  else f.Name

/-- The metadata entries of a sequence of fields whose first field has ordinal `i`:
one entry per field, in declaration order, with the field's exposed key and ordinal. -/
def entriesFrom (env : Env) : Nat → List StructField → List fieldInfo
  | _, [] => []
  | i, f :: rest => ⟨exposedKey env f, i⟩ :: entriesFrom env (i + 1) rest

/-- The lowercased exposed keys of a struct type, in declaration order: the texts
`getStructInfo` compares for its duplicate check. -/
def lowerKeys (env : Env) (st : GoType) : List String :=
  st.fields.map fun f => env.ToLower (exposedKey env f)

/-- Whether a cache entry holds, for a struct type, the metadata `getStructInfo`
builds for that type. -/
def cacheEntryOK (env : Env) (e : GoType × structInfo) : Bool :=
  decide (e.1.kind = .struct) &&
  match getStructInfo.loop env e.1 e.1.fields 0 [] [] with
  | .ok sinfo => decide (sinfo = e.2)
  | .error _ => false

/-- The cache holds only entries that `getStructInfo` stored: every state the cache
reaches from the empty cache satisfies this. -/
def CacheOK (env : Env) (structMap : List (GoType × structInfo)) : Prop :=
  ∀ e ∈ structMap, cacheEntryOK env e = true

instance (env : Env) (structMap : List (GoType × structInfo)) :
    Decidable (CacheOK env structMap) := by
  unfold CacheOK; infer_instance

/-- The association list `FieldsMap` holds for a list of metadata entries. -/
def keyed (env : Env) (es : List fieldInfo) : List (String × fieldInfo) :=
  es.map fun e => (env.ToLower e.Key, e)

/-- The metadata of a struct type in closed form. -/
def metadataOf (env : Env) (st : GoType) : structInfo :=
  ⟨keyed env (entriesFrom env 0 st.fields), entriesFrom env 0 st.fields⟩

/-- A struct type with the three field declarations of the documentation of
`StructToMap`: a `cql` tag, no tag, and a bare tag text; and a fourth field whose only
tag belongs to another package. -/
def docStruct : GoType :=
  .named "main" "Doc" (.struct
    (.cons "Field" "" "cql:\"myName\"" (.basic .int)
    (.cons "Other" "" "" (.basic .int)
    (.cons "Third" "" "bare" (.basic .string)
    (.cons "Fourth" "" "json:\"x\"" (.basic .bool) .nil)))))

/-- A struct type with two fields whose keys, `id` and `ID`, differ only by case. -/
def clashStruct : GoType :=
  .named "main" "Clash" (.struct
    (.cons "A" "" "id" (.basic .int)
    (.cons "B" "" "ID" (.basic .int) .nil)))

/-- The entries the documentation of `StructToMap` promises for the fields from
ordinal `i` on: one entry per exported field, in declaration order, under the exposed
key of the field and holding the value of the field. -/
def exportedEntries (env : Env) (d : Data) :
    Nat → List StructField → List (String × Option Value)
  | _, [] => []
  | i, f :: rest =>
    if f.PkgPath = "" then
      (exposedKey env f, interfaceOf f.Typ (d.field i)) :: exportedEntries env d (i + 1) rest
    else exportedEntries env d (i + 1) rest

/-- The struct a pointer target points to, as `MapToStruct` holds it: of type `st`,
addressable, not read-only, with `n` field payloads. -/
def Shape (st : GoType) (n : Nat) (val : RValue) : Prop :=
  val.typ = st ∧ val.addr = true ∧ val.ro = false ∧ ∃ fs, val.data = .seq fs ∧ fs.length = n

/-- The lowering of the ASCII letters `A` to `Z`, every other character kept: what
`strings.ToLower` returns on a text of ASCII characters.  It is the `ToLower` of the
example instance `plainEnv` only. -/
def lowerASCII (s : String) : String := String.mk (s.data.map Char.toLower)

/-- The scan of `StructTag.Lookup` over a quoted value, after its opening quote: the
text up to the closing quote and what follows it; a backslash skips one character. -/
def scanQuoted : List Char → List Char → Option (List Char × List Char)
  | [], _ => none
  | c :: rest, acc =>
    if c = dquote then some (acc.reverse, rest)
    else if c = backslash then
      match rest with
      | [] => none
      | d :: rest2 => scanQuoted rest2 (d :: c :: acc)
    else scanQuoted rest (c :: acc)

/-- The text between the quotes of a tag value that holds no backslash: the text
itself, unless it holds a raw newline, which `strconv.Unquote` refuses.  A value with a
backslash is outside the example instance and counts as refused. -/
def plainValue (q : List Char) : Option String :=
  if backslash ∈ q ∨ Char.ofNat 10 ∈ q then none else some (String.mk q)

/-- The loop of `StructTag.Lookup` on a tag whose values hold no backslash:
`key:"value"` pairs separated by spaces, the first pair whose key is `key` deciding.
`fuel` bounds the number of pairs read. -/
def lookupTag (key : List Char) : Nat → List Char → Option String
  | 0, _ => none
  | fuel + 1, tag =>
    let tag := tag.dropWhile (· = ' ')
    let name := tag.takeWhile
      (fun c => decide (' ' < c) && decide (c ≠ ':') && decide (c ≠ dquote) && decide (c ≠ Char.ofNat 127))
    match name, tag.drop name.length with
    | _ :: _, c1 :: c2 :: more =>
      if c1 = ':' ∧ c2 = dquote then
        match scanQuoted more [] with
        | none => none
        | some (qvalue, tag2) =>
          if key = name then plainValue qvalue
          else lookupTag key fuel tag2
      else none
    | _, _ => none

/-- The value of `key` in a conventionally formatted tag whose values hold no
backslash, the empty string when there is none: what `StructTag.Get` returns on such a
tag.  It is the `Get` of the example instance `plainEnv` only. -/
def plainGet (tag : String) (key : String) : String :=
  (lookupTag key.data (tag.length + 1) tag.data).getD ""

/-- An instance of the library functions for the examples: a conversion between two
types of the same kind keeps the payload and every other conversion panics, only the
empty interface is implemented, the JSON functions fail on every input, lowering is
that of the ASCII letters, and tags are read as tags whose values hold no backslash. -/
def plainEnv : Env :=
  ⟨fun x t => if x.typ.kind = t.kind then some ⟨t, x.data⟩ else none,
   fun T _ => decide (T.underlying = .iface ""),
   fun _ _ => none,
   fun _ => none,
   lowerASCII,
   plainGet⟩

/-- The struct type `Person` with the one field `Name string`, without tag. -/
def personStruct : GoType :=
  .named "main" "Person" (.struct (.cons "Name" "" "" (.basic .string) .nil))

/-- A struct type with an exported field `Name` under the key `name` and an unexported
field `secret`. -/
def secretStruct : GoType :=
  .named "main" "Account" (.struct
    (.cons "Name" "" "cql:\"name\"" (.basic .string)
    (.cons "secret" "main" "" (.basic .int) .nil)))

/-- A struct type with a field of the unnamed type `*int` under the key `p`. -/
def pointerStruct : GoType :=
  .named "main" "Holder" (.struct (.cons "P" "" "cql:\"p\"" (.ptr (.basic .int)) .nil))

/-- The cache after the metadata of `personStruct` has been built. -/
def personCache : List (GoType × structInfo) :=
  [(personStruct, ⟨[("name", ⟨"Name", 0⟩)], [⟨"Name", 0⟩]⟩)]

end reflect

/-- The eleven tags `cassaType` can return. -/
def IsNativeOrCustom (ct : gocql.NativeType) : Prop :=
  ct = .TypeInt ∨ ct = .TypeBigInt ∨ ct = .TypeVarchar ∨ ct = .TypeFloat ∨
  ct = .TypeDouble ∨ ct = .TypeBoolean ∨ ct = .TypeTimestamp ∨ ct = .TypeUUID ∨
  ct = .TypeBlob ∨ ct = .TypeCounter ∨ ct = .TypeCustom

/-- The type `net.IP` of the standard library: a defined type whose underlying type is
`[]byte`. -/
def netIP : GoType := .named "net" "IP" (.slice (.basic .uint8))

/-- A struct type that is not in the classification table. -/
def customStruct : GoType :=
  .named "main" "CustomType" (.struct (.cons "A" "" "" (.basic .int) .nil))

/-- The number a text of decimal digits denotes, continuing from `acc`; `none` when a
character is not a digit. -/
def digitsValue : Nat → List Char → Option Nat
  | acc, [] => some acc
  | acc, c :: rest =>
    if c.isDigit then digitsValue (acc * 10 + (c.toNat - 48)) rest else none

/-- The text between the quotes of a quoted text without escapes; `none` for any other
text. -/
def quotedText (s : List Char) : Option String :=
  match s with
  | [] => none
  | q :: rest =>
    if q = dquote ∧ rest.getLast? = some dquote ∧
        rest.dropLast.all (fun c => decide (c ≠ dquote) && decide (c ≠ backslash)) then
      some (String.mk rest.dropLast)
    else none

/-- An instance of the library functions with a fragment of JSON, for the examples:
`Unmarshal` decodes a non-empty text of decimal digits into a type of kind `int` or
`int64` and a quoted text without escapes into a type of kind `string`, and fails on
every other input; `Marshal` encodes an integer payload as its decimal text and fails on
every other value; conversions, interfaces, lowering and tags are those of `plainEnv`. -/
def jsonEnv : Env :=
  ⟨reflect.plainEnv.Convert, reflect.plainEnv.implements,
   fun s t =>
     if t.kind = .int ∨ t.kind = .int64 then
       if s.data = [] then none else (digitsValue 0 s.data).map fun n => Data.int n
     else if t.kind = .string then (quotedText s.data).map Data.str
     else none,
   fun i =>
     match i with
     | some ⟨_, .int n⟩ => some (toString n)
     | _ => none,
   reflect.plainEnv.ToLower,
   reflect.plainEnv.Get⟩

/-- The struct type `Row` with the one field `Xs []int` under the key `xs`. -/
def rowStruct : GoType :=
  .named "main" "Row" (.struct (.cons "Xs" "" "cql:\"xs\"" (.slice (.basic .int)) .nil))

/-- The defined type `Name`, a string. -/
def nameType : GoType := .named "main" "Name" (.basic .string)

/-- The struct type `Tags` with the one field `Names []Name` under the key `names`. -/
def tagsStruct : GoType :=
  .named "main" "Tags" (.struct (.cons "Names" "" "cql:\"names\"" (.slice nameType) .nil))

/-- The types of the type switch of `cassaType` (type.go:93-112). -/
def tableTypes : List GoType :=
  [.basic .int, .basic .int32, .basic .int64, .basic .string, .basic .float32,
   .basic .float64, .basic .bool, timeTime, gocql.UUID, .slice (.basic .uint8), Counter]

/-- The ten canonical schema names. -/
def canonicalNames : List String :=
  ["int", "bigint", "varchar", "float", "double", "boolean", "timestamp", "uuid", "blob",
   "counter"]

/-! ## Lemmas on maps and strings -/

theorem mapIndex_append_of_none {κ ν : Type} [DecidableEq κ] (m m2 : List (κ × ν)) (k : κ)
    (h : mapIndex m k = none) : mapIndex (m ++ m2) k = mapIndex m2 k := by
  induction m with
  | nil => rfl
  | cons e rest ih =>
    obtain ⟨a, b⟩ := e
    simp only [mapIndex] at h
    by_cases hk : a = k
    · simp [hk] at h
    · simp only [hk, if_false] at h
      simp only [List.cons_append, mapIndex, hk, if_false]
      exact ih h

theorem mapAssign_of_none {κ ν : Type} [DecidableEq κ] (m : List (κ × ν)) (k : κ) (v : ν)
    (h : mapIndex m k = none) : mapAssign m k v = m ++ [(k, v)] := by
  induction m with
  | nil => rfl
  | cons e rest ih =>
    obtain ⟨a, b⟩ := e
    simp only [mapIndex] at h
    by_cases hk : a = k
    · simp [hk] at h
    · simp only [hk, if_false] at h
      simp only [mapAssign, hk, if_false, List.cons_append, ih h]

theorem mapIndex_none_iff {κ ν : Type} [DecidableEq κ] (m : List (κ × ν)) (k : κ) :
    mapIndex m k = none ↔ k ∉ m.map Prod.fst := by
  induction m with
  | nil => simp [mapIndex]
  | cons e rest ih =>
    obtain ⟨a, b⟩ := e
    by_cases hk : a = k
    · simp [mapIndex, hk]
    · simp only [mapIndex, hk, if_false, ih, List.map_cons, List.mem_cons]
      constructor
      · intro h1 h2
        rcases h2 with h2 | h2
        · exact hk h2.symm
        · exact h1 h2
      · intro h1 h2
        exact h1 (Or.inr h2)

theorem mapIndex_mem {κ ν : Type} [DecidableEq κ] (m : List (κ × ν)) (k : κ) (v : ν)
    (h : mapIndex m k = some v) : (k, v) ∈ m := by
  induction m with
  | nil => simp [mapIndex] at h
  | cons e rest ih =>
    obtain ⟨a, b⟩ := e
    by_cases hk : a = k
    · simp only [mapIndex, hk, if_true, Option.some.injEq] at h
      simp [hk, h]
    · simp only [mapIndex, hk, if_false] at h
      exact List.mem_cons_of_mem _ (ih h)

theorem mapIndex_mapAssign_same {κ ν : Type} [DecidableEq κ] (m : List (κ × ν)) (k : κ) (v : ν) :
    mapIndex (mapAssign m k v) k = some v := by
  induction m with
  | nil => simp [mapAssign, mapIndex]
  | cons e rest ih =>
    obtain ⟨a, b⟩ := e
    by_cases hk : a = k
    · simp [mapAssign, mapIndex, hk]
    · simp [mapAssign, mapIndex, hk, ih]

theorem mapIndex_mapAssign_other {κ ν : Type} [DecidableEq κ] (m : List (κ × ν)) (k x : κ)
    (v : ν) (h : k ≠ x) : mapIndex (mapAssign m k v) x = mapIndex m x := by
  induction m with
  | nil => simp [mapAssign, mapIndex, h]
  | cons e rest ih =>
    obtain ⟨a, b⟩ := e
    by_cases hk : a = k
    · subst hk
      simp [mapAssign, mapIndex, h]
    · by_cases hx : a = x
      · subst hx
        simp [mapAssign, mapIndex, hk]
      · simp [mapAssign, mapIndex, hk, hx, ih]

theorem kind_name_slice (k : Kind) : k.name = "slice" ↔ k = .slice := by
  cases k <;> decide

theorem elem_of_slice : ∀ t : GoType, t.kind = .slice → ∃ e, t.elem = some e
  | .basic b, h => by cases b <;> simp [GoType.kind, Basic.kind] at h
  | .named _ _ u, h => by
    have := elem_of_slice u (by simpa [GoType.kind] using h)
    simpa [GoType.elem] using this
  | .array _ _, h => by simp [GoType.kind] at h
  | .slice e, _ => ⟨e, rfl⟩
  | .ptr _, h => by simp [GoType.kind] at h
  | .map _ _, h => by simp [GoType.kind] at h
  | .chan _, h => by simp [GoType.kind] at h
  | .func _, h => by simp [GoType.kind] at h
  | .iface _, h => by simp [GoType.kind] at h
  | .struct _, h => by simp [GoType.kind] at h

namespace reflect

theorem Index_neg_iff (s : String) (c : Char) : Index s c < 0 ↔ c ∉ s.data := by
  unfold Index
  by_cases h : c ∈ s.data
  · simp only [h, if_true, not_true_eq_false, iff_false, not_lt]
    exact Int.natCast_nonneg _
  · simp [h]

theorem key_logic (g T N : String) (p : Prop) [Decidable p] :
    (if (if g = "" ∧ p then T else g) ≠ "" then (if g = "" ∧ p then T else g) else N)
      = if g ≠ "" then g else if T ≠ "" ∧ p then T else N := by
  by_cases hg : g = ""
  · subst hg
    by_cases hp : p
    · by_cases hT : T = ""
      · subst hT; simp [hp]
      · simp [hp, hT]
    · simp [hp]
  · simp [hg]

theorem loop_key (env : Env) (field : StructField) :
    (if (if env.Get field.Tag "cql" = "" ∧ Index field.Tag ':' < 0 then field.Tag
          else env.Get field.Tag "cql") ≠ "" then
        (if env.Get field.Tag "cql" = "" ∧ Index field.Tag ':' < 0 then field.Tag
          else env.Get field.Tag "cql")
      else field.Name) = exposedKey env field := by
  rw [key_logic]
  unfold exposedKey
  simp only [Index_neg_iff]

theorem loop_cons (env : Env) (st : GoType) (field : StructField) (rest : List StructField) (i : Nat)
    (fm : List (String × fieldInfo)) (fl : List fieldInfo) :
    getStructInfo.loop env st (field :: rest) i fm fl =
      match mapIndex fm (env.ToLower (exposedKey env field)) with
      | some _ => .error (.duplicatedKey (exposedKey env field) st)
      | none => getStructInfo.loop env st rest (i + 1)
          (mapAssign fm (env.ToLower (exposedKey env field)) ⟨exposedKey env field, i⟩)
          (fl ++ [⟨exposedKey env field, i⟩]) := by
  simp only [getStructInfo.loop, loop_key]

theorem entriesFrom_keys (env : Env) (i : Nat) (fields : List StructField) :
    (keyed env (entriesFrom env i fields)).map Prod.fst = fields.map fun f => env.ToLower (exposedKey env f) := by
  induction fields generalizing i with
  | nil => rfl
  | cons f rest ih =>
    simp only [entriesFrom, keyed, List.map_cons, List.map_map] at ih ⊢
    rw [ih (i + 1)]

theorem loop_ok (env : Env) (st : GoType) (fields : List StructField) :
    ∀ (i : Nat) (fm : List (String × fieldInfo)) (fl : List fieldInfo),
    (fields.map fun f => env.ToLower (exposedKey env f)).Nodup →
    (∀ f ∈ fields, mapIndex fm (env.ToLower (exposedKey env f)) = none) →
    getStructInfo.loop env st fields i fm fl
      = .ok ⟨fm ++ keyed env (entriesFrom env i fields), fl ++ entriesFrom env i fields⟩ := by
  induction fields with
  | nil => intro i fm fl _ _; simp [getStructInfo.loop, entriesFrom, keyed]
  | cons f rest ih =>
    intro i fm fl hnd hfm
    rw [loop_cons, hfm f (List.mem_cons_self _ _)]
    simp only [List.map_cons, List.nodup_cons, List.mem_map, not_exists, not_and] at hnd
    have hrest : ∀ g ∈ rest, mapIndex (mapAssign fm (env.ToLower (exposedKey env f)) ⟨exposedKey env f, i⟩)
        (env.ToLower (exposedKey env g)) = none := by
      intro g hg
      rw [mapIndex_mapAssign_other]
      · exact hfm g (List.mem_cons_of_mem _ hg)
      · intro heq
        exact hnd.1 g hg heq.symm
    rw [ih (i + 1) _ _ hnd.2 hrest, mapAssign_of_none _ _ _ (hfm f (List.mem_cons_self _ _))]
    simp [entriesFrom, keyed]

theorem loop_dup (env : Env) (st : GoType) (fields : List StructField) :
    ∀ (i : Nat) (fm : List (String × fieldInfo)) (fl : List fieldInfo),
    (¬ (fields.map fun f => env.ToLower (exposedKey env f)).Nodup ∨
      ∃ f ∈ fields, mapIndex fm (env.ToLower (exposedKey env f)) ≠ none) →
    ∃ f ∈ fields, getStructInfo.loop env st fields i fm fl = .error (.duplicatedKey (exposedKey env f) st) := by
  induction fields with
  | nil =>
    intro i fm fl h
    rcases h with h | ⟨f, hf, _⟩
    · simp at h
    · simp at hf
  | cons f rest ih =>
    intro i fm fl h
    rw [loop_cons]
    cases hm : mapIndex fm (env.ToLower (exposedKey env f)) with
    | some e => exact ⟨f, List.mem_cons_self _ _, rfl⟩
    | none =>
      simp only
      have hnext : ¬ (rest.map fun f => env.ToLower (exposedKey env f)).Nodup ∨
          ∃ g ∈ rest, mapIndex (mapAssign fm (env.ToLower (exposedKey env f)) ⟨exposedKey env f, i⟩)
            (env.ToLower (exposedKey env g)) ≠ none := by
        by_cases hin : env.ToLower (exposedKey env f) ∈ rest.map fun f => env.ToLower (exposedKey env f)
        · right
          obtain ⟨g, hg, hge⟩ := List.mem_map.mp hin
          refine ⟨g, hg, ?_⟩
          rw [hge, mapIndex_mapAssign_same]
          simp
        · rcases h with h | ⟨g, hg, hgm⟩
          · left
            intro hnd
            apply h
            simp only [List.map_cons, List.nodup_cons]
            exact ⟨hin, hnd⟩
          · right
            rcases List.mem_cons.mp hg with hgf | hgr
            · subst hgf
              exact absurd hm hgm
            · refine ⟨g, hgr, ?_⟩
              rw [mapIndex_mapAssign_other]
              · exact hgm
              · intro heq
                exact hin (List.mem_map.mpr ⟨g, hgr, heq.symm⟩)
      obtain ⟨g, hg, hres⟩ := ih (i + 1) _ (fl ++ [⟨exposedKey env f, i⟩]) hnext
      exact ⟨g, List.mem_cons_of_mem _ hg, hres⟩

theorem entriesFrom_length (env : Env) (i : Nat) (fields : List StructField) :
    (entriesFrom env i fields).length = fields.length := by
  induction fields generalizing i with
  | nil => rfl
  | cons f rest ih => simp [entriesFrom, ih]

theorem entriesFrom_getElem? (env : Env) (fields : List StructField) :
    ∀ (i j : Nat), (entriesFrom env i fields)[j]?
      = (fields[j]?).map fun f => (⟨exposedKey env f, i + j⟩ : fieldInfo) := by
  induction fields with
  | nil => intro i j; simp [entriesFrom]
  | cons f rest ih =>
    intro i j
    cases j with
    | zero => simp [entriesFrom]
    | succ j =>
      simp only [entriesFrom, List.getElem?_cons_succ, ih]
      congr 1
      funext g
      congr 1
      omega

theorem Indirect_struct (rv : RValue) (h : rv.typ.kind = .struct) :
    Indirect (some rv) = some rv := by
  simp [Indirect, h]

theorem built_ok (env : Env) (st : GoType) (h : (lowerKeys env st).Nodup) :
    getStructInfo.loop env st st.fields 0 [] [] = .ok (metadataOf env st) := by
  have := loop_ok env st st.fields 0 [] [] h (fun f _ => rfl)
  simpa [metadataOf] using this

theorem built_nodup (env : Env) (st : GoType) (sinfo : structInfo)
    (h : getStructInfo.loop env st st.fields 0 [] [] = .ok sinfo) : (lowerKeys env st).Nodup := by
  by_contra hnd
  obtain ⟨f, _, hf⟩ := loop_dup env st st.fields 0 [] [] (Or.inl hnd)
  rw [hf] at h
  cases h

theorem cache_lookup (env : Env) (c : List (GoType × structInfo)) (hc : CacheOK env c) (st : GoType)
    (sinfo : structInfo) (h : mapIndex c st = some sinfo) :
    st.kind = .struct ∧ (lowerKeys env st).Nodup ∧ sinfo = metadataOf env st := by
  have hmem := mapIndex_mem c st sinfo h
  have hok := hc _ hmem
  simp only [cacheEntryOK, Bool.and_eq_true, decide_eq_true_eq] at hok
  obtain ⟨hk, hb⟩ := hok
  cases hl : getStructInfo.loop env st st.fields 0 [] [] with
  | error p => rw [hl] at hb; simp at hb
  | ok s =>
    rw [hl] at hb
    simp only [decide_eq_true_eq] at hb
    subst hb
    have hnd := built_nodup env st s hl
    refine ⟨hk, hnd, ?_⟩
    rw [built_ok env st hnd] at hl
    cases hl
    rfl

theorem cacheOK_assign (env : Env) (c : List (GoType × structInfo)) (hc : CacheOK env c) (st : GoType)
    (hk : st.kind = .struct) (hnd : (lowerKeys env st).Nodup) (hn : mapIndex c st = none) :
    CacheOK env (mapAssign c st (metadataOf env st)) := by
  rw [mapAssign_of_none c st _ hn]
  intro e he
  rcases List.mem_append.mp he with h | h
  · exact hc e h
  · simp only [List.mem_singleton] at h
    subst h
    simp [cacheEntryOK, hk, built_ok env st hnd]

/-- What `getStructInfo` returns for a struct whose keys are distinct, in a cache the
function itself filled. -/
theorem getStructInfo_ok (env : Env) (c : List (GoType × structInfo)) (hc : CacheOK env c) (rv : RValue)
    (hk : rv.typ.kind = .struct) (hnd : (lowerKeys env rv.typ).Nodup) :
    getStructInfo env c (some rv) = (.ok (metadataOf env rv.typ),
      match mapIndex c rv.typ with
      | some _ => c
      | none => mapAssign c rv.typ (metadataOf env rv.typ)) := by
  unfold getStructInfo
  rw [Indirect_struct rv hk]
  cases hm : mapIndex c rv.typ with
  | some sinfo =>
    obtain ⟨_, _, hs⟩ := cache_lookup env c hc rv.typ sinfo hm
    simp [hm, hs]
  | none =>
    simp [hm, hk, built_ok env rv.typ hnd]

theorem getStructInfo_ok_uncached (env : Env) (c : List (GoType × structInfo)) (rv : RValue)
    (hk : rv.typ.kind = .struct) (hnd : (lowerKeys env rv.typ).Nodup)
    (hn : mapIndex c rv.typ = none) :
    getStructInfo env c (some rv) = (.ok (metadataOf env rv.typ),
      mapAssign c rv.typ (metadataOf env rv.typ)) := by
  unfold getStructInfo
  rw [Indirect_struct rv hk]
  simp [hn, hk, built_ok env rv.typ hnd]

theorem getStructInfo_dup (env : Env) (c : List (GoType × structInfo)) (rv : RValue)
    (hk : rv.typ.kind = .struct) (hn : mapIndex c rv.typ = none)
    (hnd : ¬ (lowerKeys env rv.typ).Nodup) :
    ∃ f ∈ rv.typ.fields,
      getStructInfo env c (some rv) = (.error (.duplicatedKey (exposedKey env f) rv.typ), c) := by
  obtain ⟨f, hf, hl⟩ := loop_dup env rv.typ rv.typ.fields 0 [] [] (Or.inl hnd)
  refine ⟨f, hf, ?_⟩
  unfold getStructInfo
  rw [Indirect_struct rv hk]
  simp [hn, hk, hl]

/-- The cache invariant is kept by `getStructInfo`, whatever it is called with. -/
theorem CacheOK_getStructInfo (env : Env) (c : List (GoType × structInfo)) (hc : CacheOK env c)
    (v : Option RValue) : CacheOK env (getStructInfo env c v).2 := by
  unfold getStructInfo
  cases hi : Indirect v with
  | none => exact hc
  | some iv =>
    simp only
    cases hm : mapIndex c iv.typ with
    | some sinfo => exact hc
    | none =>
      simp only
      by_cases hk : iv.typ.kind = .struct
      · simp only [hk, ne_eq, not_true_eq_false, if_false]
        cases hl : getStructInfo.loop env iv.typ iv.typ.fields 0 [] [] with
        | error p => exact hc
        | ok sinfo =>
          simp only
          rw [mapAssign_of_none c _ _ hm]
          intro e he
          rcases List.mem_append.mp he with h | h
          · exact hc e h
          · simp only [List.mem_singleton] at h
            subst h
            simp [cacheEntryOK, hk, hl]
      · simp only [hk, ne_eq, not_false_eq_true, if_true]
        exact hc

/-- The cache invariant is kept by `StructToMap`, `FieldsAndValues` and `MapToStruct`:
the only write to the cache is the one of `getStructInfo`. -/
theorem CacheOK_kept (env : Env) (c : List (GoType × structInfo)) (hc : CacheOK env c)
    (val : Option Value) (m : List (String × Option Value)) :
    CacheOK env (StructToMap env c val).2 ∧ CacheOK env (FieldsAndValues env c val).2 ∧
    CacheOK env (MapToStruct env c m val).2 := by
  have hg := CacheOK_getStructInfo env c hc (Indirect (ValueOf val))
  refine ⟨?_, ?_, ?_⟩
  · unfold StructToMap
    simp only
    split
    · exact hc
    · split
      · rename_i h; rw [h] at hg
        split <;> exact hg
      · rename_i h; rw [h] at hg; exact hg
      · rename_i h; rw [h] at hg; exact hg
  · unfold FieldsAndValues
    simp only
    split
    · exact hc
    · split
      · rename_i h; rw [h] at hg
        split <;> exact hg
      · rename_i h; rw [h] at hg; exact hg
      · rename_i h; rw [h] at hg; exact hg
  · unfold MapToStruct
    simp only
    split
    · rename_i h; rw [h] at hg
      split <;> exact hg
    · rename_i h; rw [h] at hg; exact hg
    · rename_i h; rw [h] at hg; exact hg

/-- C4. Key derivation and order: for a struct type whose lowercased keys are pairwise
distinct, `getStructInfo` returns metadata whose ordered list has one entry per declared
field, in declaration order, the entry of field `i` having ordinal `i` and the exposed
key of the field (the `cql` tag value if non-empty, else the raw tag text if non-empty
and without colon, else the declared name), and whose by-key map holds exactly these
entries, each under its lowercased key. -/
theorem getStructInfo_keys_and_order (env : Env) (structMap : List (GoType × structInfo)) (v : RValue)
    (hc : CacheOK env structMap) (hk : v.typ.kind = .struct) (hnd : (lowerKeys env v.typ).Nodup) :
    ∃ sinfo, (getStructInfo env structMap (some v)).1 = .ok sinfo ∧
      sinfo.FieldsList.length = v.typ.fields.length ∧
      (∀ (i : Nat) (f : StructField), v.typ.fields[i]? = some f →
        sinfo.FieldsList[i]? = some (fieldInfo.mk
          (if env.Get f.Tag "cql" ≠ "" then env.Get f.Tag "cql"
           else if f.Tag ≠ "" ∧ ':' ∉ f.Tag.data then f.Tag
           else f.Name) i)) ∧
      sinfo.FieldsMap = sinfo.FieldsList.map (fun e => (env.ToLower e.Key, e)) := by
  refine ⟨metadataOf env v.typ, ?_, ?_, ?_, ?_⟩
  · rw [getStructInfo_ok env structMap hc v hk hnd]
  · simp [metadataOf, entriesFrom_length]
  · intro i f hf
    simp only [metadataOf, entriesFrom_getElem?, hf, Option.map_some', Nat.zero_add]
    rfl
  · rfl

/-- Claim C4 on the struct of the documentation of `StructToMap`: the four keys come from the `cql` tag, the field name, the bare tag text, and again the field name (the tag holds a colon but no `cql` value). -/
theorem getStructInfo_keys_and_order_witness :
    (CacheOK plainEnv [] ∧ docStruct.kind = .struct ∧ (lowerKeys plainEnv docStruct).Nodup) ∧
    ∃ sinfo, (getStructInfo plainEnv [] (some ⟨docStruct, docStruct.zero, false, false⟩)).1 = .ok sinfo ∧
      sinfo.FieldsList = [⟨"myName", 0⟩, ⟨"Other", 1⟩, ⟨"bare", 2⟩, ⟨"Fourth", 3⟩] ∧
      sinfo.FieldsMap = [("myname", ⟨"myName", 0⟩), ("other", ⟨"Other", 1⟩),
        ("bare", ⟨"bare", 2⟩), ("fourth", ⟨"Fourth", 3⟩)] := by
  refine ⟨⟨by decide, by decide, by decide⟩, ?_⟩
  obtain ⟨sinfo, h1, _, _, _⟩ := getStructInfo_keys_and_order plainEnv []
    ⟨docStruct, docStruct.zero, false, false⟩ (by decide) (by decide) (by decide)
  refine ⟨sinfo, h1, ?_⟩
  have h2 : (getStructInfo plainEnv [] (some ⟨docStruct, docStruct.zero, false, false⟩)).1
      = .ok ⟨[("myname", ⟨"myName", 0⟩), ("other", ⟨"Other", 1⟩),
        ("bare", ⟨"bare", 2⟩), ("fourth", ⟨"Fourth", 3⟩)],
        [⟨"myName", 0⟩, ⟨"Other", 1⟩, ⟨"bare", 2⟩, ⟨"Fourth", 3⟩]⟩ := by rfl
  rw [h2] at h1
  cases h1
  exact ⟨rfl, rfl⟩

theorem not_nodup_of_clash (l : List String) (i j : Nat) (hij : i < j) (a b : String)
    (hi : l[i]? = some a) (hj : l[j]? = some b) (hab : a = b) : ¬ l.Nodup := by
  intro hnd
  subst hab
  have hjl : j < l.length := by
    by_contra h
    rw [List.getElem?_eq_none (by omega)] at hj
    cases hj
  have hil : i < l.length := by omega
  have h1 : l.get ⟨i, hil⟩ = a := by
    rw [List.getElem?_eq_getElem hil] at hi
    exact Option.some.inj hi
  have h2 : l.get ⟨j, hjl⟩ = a := by
    rw [List.getElem?_eq_getElem hjl] at hj
    exact Option.some.inj hj
  have := (List.Nodup.get_inj_iff hnd).mp (h1.trans h2.symm)
  simp at this
  omega

/-- C5. Case-insensitive collision fails fast: when two fields of a struct type have
exposed keys that are equal after lowercasing and the type is not in the cache,
`getStructInfo`, `StructToMap`, `MapToStruct` and `FieldsAndValues` all panic with the
duplicated-key panic of `getStructInfo` and leave the cache as it was; when all
lowercased keys are distinct, `getStructInfo` returns metadata. -/
theorem duplicate_key_panics (env : Env) (structMap : List (GoType × structInfo))
    (st : GoType) (d : Data) (m : List (String × Option Value))
    (hk : st.kind = .struct) (hn : mapIndex structMap st = none) :
    ((∃ (i j : Nat) (f g : StructField), i < j ∧ st.fields[i]? = some f ∧ st.fields[j]? = some g ∧
        env.ToLower (exposedKey env f) = env.ToLower (exposedKey env g)) →
      ∃ key, key ∈ st.fields.map (exposedKey env) ∧
        getStructInfo env structMap (some ⟨st, d, false, false⟩)
          = (.error (.duplicatedKey key st), structMap) ∧
        StructToMap env structMap (some ⟨st, d⟩) = (.error (.duplicatedKey key st), structMap) ∧
        StructToMap env structMap (some ⟨.ptr st, .ref d⟩)
          = (.error (.duplicatedKey key st), structMap) ∧
        MapToStruct env structMap m (some ⟨.ptr st, .ref d⟩)
          = (.error (.duplicatedKey key st), structMap) ∧
        FieldsAndValues env structMap (some ⟨st, d⟩)
          = (.error (.duplicatedKey key st), structMap) ∧
        FieldsAndValues env structMap (some ⟨.ptr st, .ref d⟩)
          = (.error (.duplicatedKey key st), structMap)) ∧
    ((lowerKeys env st).Nodup →
      ∃ sinfo, getStructInfo env structMap (some ⟨st, d, false, false⟩)
        = (.ok sinfo, mapAssign structMap st sinfo)) := by
  constructor
  · rintro ⟨i, j, f, g, hij, hf, hg, hfg⟩
    have hnd : ¬ (lowerKeys env st).Nodup := by
      apply not_nodup_of_clash (lowerKeys env st) i j hij _ _ _ _ hfg
      · simp [lowerKeys, hf]
      · simp [lowerKeys, hg]
    obtain ⟨f2, hf2, hl⟩ := loop_dup env st st.fields 0 [] [] (Or.inl hnd)
    have hgs : ∀ a r, getStructInfo env structMap (some ⟨st, d, a, r⟩)
        = (.error (.duplicatedKey (exposedKey env f2) st), structMap) := by
      intro a r
      unfold getStructInfo
      rw [Indirect_struct _ hk]
      simp [hn, hk, hl]
    have hptr : (GoType.ptr st).kind = .ptr := rfl
    refine ⟨exposedKey env f2, List.mem_map.mpr ⟨f2, hf2, rfl⟩, hgs _ _, ?_, ?_, ?_, ?_, ?_⟩
    · simp [StructToMap, ValueOf, Indirect, RValue.kind, hk, hgs]
    · simp [StructToMap, ValueOf, Indirect, RValue.kind, hk, hgs, GoType.kind, GoType.elem]
    · simp [MapToStruct, ValueOf, Indirect, hgs, GoType.kind, GoType.elem]
    · simp [FieldsAndValues, ValueOf, Indirect, RValue.kind, hk, hgs]
    · simp [FieldsAndValues, ValueOf, Indirect, RValue.kind, hk, hgs, GoType.kind, GoType.elem]
  · intro hnd
    refine ⟨metadataOf env st, ?_⟩
    have := getStructInfo_ok_uncached env structMap ⟨st, d, false, false⟩ hk hnd hn
    exact this

theorem Field_eq (sv : RValue) (hk : sv.typ.kind = .struct) (j : Nat) (f : StructField)
    (hf : sv.typ.fields[j]? = some f) :
    sv.Field j = .ok ⟨f.Typ, sv.data.field j, sv.addr, sv.ro || decide (f.PkgPath ≠ "")⟩ := by
  simp [RValue.Field, hk, hf]

theorem exactKeys_nodup (env : Env) (fields : List StructField)
    (h : (fields.map fun f => env.ToLower (exposedKey env f)).Nodup) :
    (fields.map (exposedKey env)).Nodup := by
  have h2 : ((fields.map (exposedKey env)).map env.ToLower).Nodup := by
    simpa [List.map_map, Function.comp] using h
  exact List.Nodup.of_map env.ToLower h2

theorem exportedEntries_keys (env : Env) (d : Data) (fields : List StructField) (i : Nat) (k : String)
    (h : k ∈ (exportedEntries env d i fields).map Prod.fst) : k ∈ fields.map (exposedKey env) := by
  induction fields generalizing i with
  | nil => simp [exportedEntries] at h
  | cons f rest ih =>
    simp only [exportedEntries] at h
    by_cases hp : f.PkgPath = ""
    · simp only [hp, if_true, List.map_cons, List.mem_cons] at h
      rcases h with h | h
      · simp [h]
      · exact List.mem_cons_of_mem _ (ih (i + 1) h)
    · simp only [hp, if_false] at h
      exact List.mem_cons_of_mem _ (ih (i + 1) h)

theorem StructToMap_loop_eq (env : Env) (sv : RValue) (hk : sv.typ.kind = .struct) (hro : sv.ro = false) :
    ∀ (rest pre : List StructField) (mapVal : List (String × Option Value)),
    sv.typ.fields = pre ++ rest →
    (rest.map (exposedKey env)).Nodup →
    (∀ f ∈ rest, exposedKey env f ∉ mapVal.map Prod.fst) →
    StructToMap.loop sv (entriesFrom env pre.length rest) mapVal
      = .ok (mapVal ++ exportedEntries env sv.data pre.length rest) := by
  intro rest
  induction rest with
  | nil => intro pre mapVal _ _ _; simp [entriesFrom, StructToMap.loop, exportedEntries]
  | cons f rest ih =>
    intro pre mapVal hfields hnd hfresh
    have hget : sv.typ.fields[pre.length]? = some f := by
      rw [hfields, List.getElem?_append_right (le_refl _)]; simp
    have hfields2 : sv.typ.fields = (pre ++ [f]) ++ rest := by
      rw [hfields]; simp
    have hlen : (pre ++ [f]).length = pre.length + 1 := by simp
    simp only [List.map_cons, List.nodup_cons] at hnd
    simp only [entriesFrom, StructToMap.loop, Field_eq sv hk _ f hget, hro, Bool.false_or,
      RValue.CanInterface, RValue.Interface, exportedEntries]
    by_cases hp : f.PkgPath = ""
    · have hnone : mapIndex mapVal (exposedKey env f) = none :=
        (mapIndex_none_iff _ _).mpr (hfresh f (List.mem_cons_self _ _))
      simp only [hp, ne_eq, not_true_eq_false, decide_False, Bool.not_false, if_true,
        Bool.false_eq_true, if_false, mapAssign_of_none _ _ _ hnone]
      have := ih (pre ++ [f]) (mapVal ++ [(exposedKey env f, interfaceOf f.Typ (sv.data.field pre.length))])
        hfields2 hnd.2 (by
          intro g hg hmem
          simp only [List.map_append, List.map_cons, List.map_nil, List.mem_append,
            List.mem_singleton] at hmem
          rcases hmem with hmem | hmem
          · exact hfresh g (List.mem_cons_of_mem _ hg) hmem
          · exact hnd.1 (hmem ▸ List.mem_map.mpr ⟨g, hg, rfl⟩))
      rw [hlen] at this
      rw [this]
      simp
    · simp only [hp, ne_eq, not_false_eq_true, decide_True, Bool.not_true, Bool.false_eq_true,
        if_false]
      have := ih (pre ++ [f]) mapVal hfields2 hnd.2
        (fun g hg => hfresh g (List.mem_cons_of_mem _ hg))
      rw [hlen] at this
      exact this

theorem StructToMap_of_struct (env : Env) (c : List (GoType × structInfo)) (hc : CacheOK env c)
    (val : Option Value) (sv : RValue) (hi : Indirect (ValueOf val) = some sv)
    (hk : sv.typ.kind = .struct) (hro : sv.ro = false) (hnd : (lowerKeys env sv.typ).Nodup) :
    (StructToMap env c val).1 = .ok (some (exportedEntries env sv.data 0 sv.typ.fields), true) := by
  have hloop := StructToMap_loop_eq env sv hk hro sv.typ.fields [] [] rfl
    (exactKeys_nodup env _ hnd) (by simp)
  simp only [List.length_nil, List.nil_append] at hloop
  simp only [StructToMap, hi, RValue.kind, hk, ne_eq, not_true_eq_false, if_false,
    getStructInfo_ok env c hc sv hk hnd, metadataOf, hloop]

theorem exportedEntries_mem (env : Env) (d : Data) (fields : List StructField) :
    ∀ (i : Nat) (k : String) (x : Option Value),
    (k, x) ∈ exportedEntries env d i fields ↔
      ∃ (j : Nat) (f : StructField), fields[j]? = some f ∧ f.PkgPath = "" ∧
        k = exposedKey env f ∧ x = interfaceOf f.Typ (d.field (i + j)) := by
  induction fields with
  | nil => intro i k x; simp [exportedEntries]
  | cons f rest ih =>
    intro i k x
    have hstep : (k, x) ∈ exportedEntries env d (i + 1) rest ↔
        ∃ (j : Nat) (g : StructField), (f :: rest)[j + 1]? = some g ∧ g.PkgPath = "" ∧
          k = exposedKey env g ∧ x = interfaceOf g.Typ (d.field (i + (j + 1))) := by
      rw [ih (i + 1) k x]
      constructor
      · rintro ⟨j, g, h1, h2, h3, h4⟩
        refine ⟨j, g, by simpa using h1, h2, h3, ?_⟩
        rw [h4]; congr 2; omega
      · rintro ⟨j, g, h1, h2, h3, h4⟩
        refine ⟨j, g, by simpa using h1, h2, h3, ?_⟩
        rw [h4]; congr 2; omega
    constructor
    · intro h
      simp only [exportedEntries] at h
      by_cases hp : f.PkgPath = ""
      · simp only [hp, if_true, List.mem_cons, Prod.mk.injEq] at h
        rcases h with ⟨h1, h2⟩ | h
        · exact ⟨0, f, by simp, hp, h1, by simpa using h2⟩
        · obtain ⟨j, g, h1, h2, h3, h4⟩ := hstep.mp h
          exact ⟨j + 1, g, h1, h2, h3, h4⟩
      · simp only [hp, if_false] at h
        obtain ⟨j, g, h1, h2, h3, h4⟩ := hstep.mp h
        exact ⟨j + 1, g, h1, h2, h3, h4⟩
    · rintro ⟨j, g, h1, h2, h3, h4⟩
      simp only [exportedEntries]
      cases j with
      | zero =>
        simp only [List.getElem?_cons_zero, Option.some.injEq] at h1
        subst h1
        simp only [h2, if_true, List.mem_cons, Prod.mk.injEq]
        left
        exact ⟨h3, by simpa using h4⟩
      | succ j =>
        have hin := hstep.mpr ⟨j, g, h1, h2, h3, h4⟩
        by_cases hp : f.PkgPath = ""
        · simp only [hp, if_true, List.mem_cons]
          exact Or.inr hin
        · simp only [hp, if_false]
          exact hin

theorem exportedEntries_nodup (env : Env) (d : Data) (fields : List StructField) :
    ∀ (i : Nat), (fields.map (exposedKey env)).Nodup →
      ((exportedEntries env d i fields).map Prod.fst).Nodup := by
  induction fields with
  | nil => intro i _; simp [exportedEntries]
  | cons f rest ih =>
    intro i hnd
    simp only [List.map_cons, List.nodup_cons] at hnd
    simp only [exportedEntries]
    by_cases hp : f.PkgPath = ""
    · simp only [hp, if_true, List.map_cons, List.nodup_cons]
      exact ⟨fun hmem => hnd.1 (exportedEntries_keys env d rest (i + 1) _ hmem), ih (i + 1) hnd.2⟩
    · simp only [hp, if_false]
      exact ih (i + 1) hnd.2

/-- C6, as amended. `StructToMap` content: for a struct value, or a pointer to one,
whose type has pairwise distinct lowercased keys, `StructToMap` returns ok = true and a
mapping with pairwise distinct keys whose entries are exactly the pairs of the exposed
key (in its original letter case) and the value of an exported field: no entry for an
unexported field and no other entry. -/
theorem StructToMap_content (env : Env) (structMap : List (GoType × structInfo)) (st : GoType) (d : Data)
    (hc : CacheOK env structMap) (hk : st.kind = .struct) (hnd : (lowerKeys env st).Nodup) :
    ∃ mapVal : List (String × Option Value),
      (StructToMap env structMap (some ⟨st, d⟩)).1 = .ok (some mapVal, true) ∧
      (StructToMap env structMap (some ⟨.ptr st, .ref d⟩)).1 = .ok (some mapVal, true) ∧
      (mapVal.map Prod.fst).Nodup ∧
      ∀ (k : String) (x : Option Value), (k, x) ∈ mapVal ↔
        ∃ (i : Nat) (f : StructField), st.fields[i]? = some f ∧ f.PkgPath = "" ∧
          k = exposedKey env f ∧ x = interfaceOf f.Typ (d.field i) := by
  refine ⟨exportedEntries env d 0 st.fields, ?_, ?_, ?_, ?_⟩
  · exact StructToMap_of_struct env structMap hc (some ⟨st, d⟩) ⟨st, d, false, false⟩
      (by simp [ValueOf, Indirect, hk]) hk rfl hnd
  · exact StructToMap_of_struct env structMap hc (some ⟨.ptr st, .ref d⟩) ⟨st, d, true, false⟩
      (by simp [ValueOf, Indirect, GoType.kind, GoType.elem]) hk rfl hnd
  · exact exportedEntries_nodup env d st.fields 0 (exactKeys_nodup env _ hnd)
  · intro k x
    rw [exportedEntries_mem env d st.fields 0 k x]
    simp only [Nat.zero_add]

theorem MapToStruct_loop_nomatch (env : Env) (sinfo : structInfo) (val : RValue) :
    ∀ (m : List (String × Option Value)),
    (∀ kv ∈ m, mapIndex sinfo.FieldsMap kv.1 = none) →
    MapToStruct.loop env sinfo val m = .ok (none, val) := by
  intro m
  induction m with
  | nil => intro _; rfl
  | cons kv rest ih =>
    intro h
    obtain ⟨k, v⟩ := kv
    have hk := h (k, v) (List.mem_cons_self _ _)
    simp only at hk
    simp only [MapToStruct.loop, hk]
    exact ih (fun kv hkv => h kv (List.mem_cons_of_mem _ hkv))

theorem metadata_lookup_none (env : Env) (st : GoType) (k : String)
    (h : ∀ f ∈ st.fields, k ≠ env.ToLower (exposedKey env f)) :
    mapIndex (metadataOf env st).FieldsMap k = none := by
  rw [mapIndex_none_iff]
  simp only [metadataOf, entriesFrom_keys]
  intro hmem
  obtain ⟨f, hf, hfk⟩ := List.mem_map.mp hmem
  exact h f hf hfk.symm

/-- C3, as amended. Unknown keys are ignored: for a struct target (a pointer to a
struct, or a struct) whose type has pairwise distinct lowercased keys, and a mapping
none of whose keys matches a field of the target, letter case aside (the lowercased
key is not the lowercased exposed key of a field, and the key as written is not it
either), `MapToStruct` returns nil and leaves the target as it was.  Lowercasing is
`strings.ToLower` and the `cql` tag is read by `StructTag.Get`, both taken as given. -/
theorem MapToStruct_unknown_keys_ignored (env : Env) (structMap : List (GoType × structInfo))
    (st : GoType) (d : Data) (m : List (String × Option Value))
    (hc : CacheOK env structMap) (hk : st.kind = .struct) (hnd : (lowerKeys env st).Nodup)
    (hm : ∀ kv ∈ m, ∀ f ∈ st.fields,
      env.ToLower kv.1 ≠ env.ToLower (exposedKey env f) ∧
      kv.1 ≠ env.ToLower (exposedKey env f)) :
    (MapToStruct env structMap m (some ⟨.ptr st, .ref d⟩)).1
        = .ok (none, some ⟨.ptr st, .ref d⟩) ∧
    (MapToStruct env structMap m (some ⟨st, d⟩)).1 = .ok (none, some ⟨st, d⟩) := by
  have hloop : ∀ rv : RValue, MapToStruct.loop env (metadataOf env st) rv m = .ok (none, rv) :=
    fun rv => MapToStruct_loop_nomatch env _ rv m
      (fun kv hkv => metadata_lookup_none env st kv.1 (fun f hf => (hm kv hkv f hf).2))
  constructor
  · have hi : Indirect (ValueOf (some ⟨.ptr st, .ref d⟩)) = some ⟨st, d, true, false⟩ := by
      simp [ValueOf, Indirect, GoType.kind, GoType.elem]
    simp only [MapToStruct, hi, getStructInfo_ok env structMap hc ⟨st, d, true, false⟩ hk hnd, hloop,
      writeBack, GoType.kind, if_true]
  · have hi : Indirect (ValueOf (some ⟨st, d⟩)) = some ⟨st, d, false, false⟩ := by
      simp [ValueOf, Indirect, hk]
    simp only [MapToStruct, hi, getStructInfo_ok env structMap hc ⟨st, d, false, false⟩ hk hnd, hloop]
    cases d <;> simp [writeBack, hk]

theorem Set_same_type (env : Env) (T : GoType) (d0 dv : Data) :
    RValue.Set env ⟨T, d0, true, false⟩ (ValueOf (some ⟨T, dv⟩)) = .ok dv := by
  simp [RValue.Set, RValue.CanSet, ValueOf, assignTo, directlyAssignable]

theorem assign_same_type (env : Env) (T : GoType) (d0 dv : Data)
    (hT : T.kind = .slice ∨ T.name ≠ "") :
    MapToStruct.assign env ⟨T, d0, true, false⟩ (some ⟨T, dv⟩) = .ok (none, some dv) := by
  by_cases hs : T.kind = .slice
  · obtain ⟨e, he⟩ := elem_of_slice T hs
    have hn : T.kind.name = "slice" := (kind_name_slice _).mpr hs
    simp only [MapToStruct.assign, TypeOf, Option.map_some', hn, and_self, if_true, he,
      Set_same_type]
  · have hn : ¬ T.kind.name = "slice" := fun h => hs ((kind_name_slice _).mp h)
    have hname : T.name ≠ "" := by
      rcases hT with h | h
      · exact absurd h hs
      · exact h
    simp only [MapToStruct.assign, TypeOf, Option.map_some', hn, false_and, if_false, hname,
      or_self, if_true, Set_same_type]

theorem entry_good (env : Env) (st : GoType) (n : Nat) (val : RValue) (hv : Shape st n val)
    (hk : st.kind = .struct) (i : Nat) (key : String) (f : StructField)
    (hf : st.fields[i]? = some f) (hex : f.PkgPath = "")
    (hT : f.Typ.kind = .slice ∨ f.Typ.name ≠ "") (dv : Data) :
    MapToStruct.entry env val ⟨key, i⟩ (some ⟨f.Typ, dv⟩)
      = .ok (none, { val with data := val.data.setField i dv }) := by
  obtain ⟨h1, h2, h3, _⟩ := hv
  have hF : val.Field i = .ok ⟨f.Typ, val.data.field i, true, false⟩ := by
    rw [Field_eq val (h1 ▸ hk) i f (h1 ▸ hf), h2, h3]
    simp [hex]
  simp only [MapToStruct.entry, hF, assign_same_type env f.Typ _ dv hT]

theorem entry_effect (env : Env) (val val2 : RValue) (info : fieldInfo) (v : Option Value)
    (err : Option Err) (h : MapToStruct.entry env val info v = .ok (err, val2)) :
    val2 = val ∨ ∃ x, val2 = { val with data := val.data.setField info.Num x } := by
  unfold MapToStruct.entry at h
  split at h
  · cases h
  · split at h
    · cases h
    · cases h; exact Or.inl rfl
    · cases h; exact Or.inr ⟨_, rfl⟩

theorem setField_shape (st : GoType) (n : Nat) (val : RValue) (hv : Shape st n val)
    (i : Nat) (x : Data) : Shape st n { val with data := val.data.setField i x } := by
  obtain ⟨h1, h2, h3, fs, h4, h5⟩ := hv
  refine ⟨h1, h2, h3, fs.set i x, ?_, by simp [h5]⟩
  simp [h4, Data.setField]

theorem setField_field_ne (d : Data) (i j : Nat) (x : Data) (h : j ≠ i) :
    (d.setField j x).field i = d.field i := by
  cases d <;> simp [Data.setField, Data.field, List.getD, List.getElem?_set_ne h]

theorem setField_field_same (fs : List Data) (i : Nat) (x : Data) (h : i < fs.length) :
    ((Data.seq fs).setField i x).field i = x := by
  simp [Data.setField, Data.field, List.getD, h]

theorem keyed_lookup (env : Env) (es : List fieldInfo) (k : String) (e : fieldInfo)
    (h : mapIndex (keyed env es) k = some e) : e ∈ es ∧ env.ToLower e.Key = k := by
  induction es with
  | nil => simp [keyed, mapIndex] at h
  | cons a rest ih =>
    simp only [keyed, List.map_cons, mapIndex] at h
    by_cases hk : env.ToLower a.Key = k
    · simp only [hk, if_true, Option.some.injEq] at h
      subst h
      exact ⟨List.mem_cons_self _ _, hk⟩
    · simp only [hk, if_false] at h
      obtain ⟨h1, h2⟩ := ih h
      exact ⟨List.mem_cons_of_mem _ h1, h2⟩

theorem entriesFrom_mem (env : Env) (fields : List StructField) (i0 : Nat) (e : fieldInfo)
    (h : e ∈ entriesFrom env i0 fields) :
    ∃ (j : Nat) (f : StructField), fields[j]? = some f ∧ e = ⟨exposedKey env f, i0 + j⟩ := by
  obtain ⟨j, hj, hje⟩ := List.getElem_of_mem h
  have h2 : (entriesFrom env i0 fields)[j]? = some e := by
    rw [List.getElem?_eq_getElem hj, hje]
  rw [entriesFrom_getElem?] at h2
  cases hf : fields[j]? with
  | none => rw [hf] at h2; cases h2
  | some f =>
    rw [hf] at h2
    simp only [Option.map_some', Option.some.injEq] at h2
    exact ⟨j, f, hf, h2.symm⟩

theorem lookup_hit (env : Env) (fields : List StructField) :
    ∀ (i0 j : Nat) (f : StructField),
    (fields.map fun f => env.ToLower (exposedKey env f)).Nodup → fields[j]? = some f →
    mapIndex (keyed env (entriesFrom env i0 fields)) (env.ToLower (exposedKey env f))
      = some ⟨exposedKey env f, i0 + j⟩ := by
  induction fields with
  | nil => intro i0 j f _ h; simp at h
  | cons g rest ih =>
    intro i0 j f hnd hf
    simp only [List.map_cons, List.nodup_cons] at hnd
    cases j with
    | zero =>
      simp only [List.getElem?_cons_zero, Option.some.injEq] at hf
      subst hf
      simp [entriesFrom, keyed, mapIndex]
    | succ j =>
      simp only [List.getElem?_cons_succ] at hf
      have hmem : f ∈ rest := List.getElem?_mem hf
      have hne : env.ToLower (exposedKey env g) ≠ env.ToLower (exposedKey env f) := by
        intro heq
        exact hnd.1 (List.mem_map.mpr ⟨f, hmem, heq.symm⟩)
      have := ih (i0 + 1) j f hnd.2 hf
      simp only [keyed] at this
      simp only [entriesFrom, keyed, List.map_cons, mapIndex, hne, if_false, this]
      congr 2
      omega

theorem other_key_other_field (env : Env) (st : GoType) (i : Nat) (f : StructField)
    (hf : st.fields[i]? = some f) (k2 : String) (info : fieldInfo)
    (hne : k2 ≠ env.ToLower (exposedKey env f))
    (h : mapIndex (metadataOf env st).FieldsMap k2 = some info) : info.Num ≠ i := by
  obtain ⟨hmem, hkey⟩ := keyed_lookup env _ _ _ h
  obtain ⟨j, g, hg, he⟩ := entriesFrom_mem env _ _ _ hmem
  intro hnum
  subst he
  simp only [Nat.zero_add] at hnum
  subst hnum
  rw [hg] at hf
  cases hf
  exact hne hkey.symm

theorem loop_append (env : Env) (sinfo : structInfo) :
    ∀ (pre rest : List (String × Option Value)) (val : RValue),
    MapToStruct.loop env sinfo val (pre ++ rest) =
      match MapToStruct.loop env sinfo val pre with
      | .ok (none, val1) => MapToStruct.loop env sinfo val1 rest
      | other => other := by
  intro pre
  induction pre with
  | nil => intro rest val; simp [MapToStruct.loop]
  | cons kv pre ih =>
    intro rest val
    obtain ⟨k, v⟩ := kv
    simp only [List.cons_append, MapToStruct.loop]
    cases hm : mapIndex sinfo.FieldsMap k with
    | none => exact ih rest val
    | some info =>
      simp only
      cases he : MapToStruct.entry env val info v with
      | error p => simp
      | ok r =>
        obtain ⟨err, val2⟩ := r
        cases err with
        | none => exact ih rest val2
        | some e => simp

theorem loop_preserve (env : Env) (st : GoType) (n i : Nat) (f : StructField)
    (hf : st.fields[i]? = some f) :
    ∀ (m : List (String × Option Value)) (val val2 : RValue) (err : Option Err),
    Shape st n val → (∀ kv ∈ m, kv.1 ≠ env.ToLower (exposedKey env f)) →
    MapToStruct.loop env (metadataOf env st) val m = .ok (err, val2) →
    Shape st n val2 ∧ val2.data.field i = val.data.field i := by
  intro m
  induction m with
  | nil =>
    intro val val2 err hv _ h
    simp only [MapToStruct.loop, Except.ok.injEq, Prod.mk.injEq] at h
    obtain ⟨_, h2⟩ := h
    subst h2
    exact ⟨hv, rfl⟩
  | cons kv rest ih =>
    intro val val2 err hv hne h
    obtain ⟨k, v⟩ := kv
    have hk := hne (k, v) (List.mem_cons_self _ _)
    have hrest : ∀ kv ∈ rest, kv.1 ≠ env.ToLower (exposedKey env f) :=
      fun kv hkv => hne kv (List.mem_cons_of_mem _ hkv)
    simp only [MapToStruct.loop] at h
    cases hm : mapIndex (metadataOf env st).FieldsMap k with
    | none =>
      rw [hm] at h
      exact ih val val2 err hv hrest h
    | some info =>
      rw [hm] at h
      simp only at h
      have hnum := other_key_other_field env st i f hf k info hk hm
      cases he : MapToStruct.entry env val info v with
      | error p => rw [he] at h; cases h
      | ok r =>
        obtain ⟨e1, val1⟩ := r
        rw [he] at h
        have hstep : Shape st n val1 ∧ val1.data.field i = val.data.field i := by
          rcases entry_effect env val val1 info v e1 he with h1 | ⟨x, h1⟩
          · subst h1; exact ⟨hv, rfl⟩
          · subst h1
            exact ⟨setField_shape st n val hv _ _, setField_field_ne _ _ _ _ hnum⟩
        cases e1 with
        | some e =>
          simp only [Except.ok.injEq, Prod.mk.injEq] at h
          obtain ⟨_, h2⟩ := h
          subst h2
          exact hstep
        | none =>
          simp only at h
          obtain ⟨h3, h4⟩ := ih val1 val2 err hstep.1 hrest h
          exact ⟨h3, h4.trans hstep.2⟩

theorem split_at_key (m : List (String × Option Value)) (k : String) (v : Option Value)
    (hkeys : (m.map Prod.fst).Nodup) (hmem : (k, v) ∈ m) :
    ∃ pre post, m = pre ++ (k, v) :: post ∧ (∀ kv ∈ pre, kv.1 ≠ k) ∧ (∀ kv ∈ post, kv.1 ≠ k) := by
  obtain ⟨pre, post, hm⟩ := List.append_of_mem hmem
  refine ⟨pre, post, hm, ?_, ?_⟩
  · intro kv hkv heq
    rw [hm, List.map_append, List.map_cons] at hkeys
    have := (List.nodup_append.mp hkeys).2.2
    exact this (List.mem_map.mpr ⟨kv, hkv, rfl⟩) (by rw [heq]; exact List.mem_cons_self _ _)
  · intro kv hkv heq
    rw [hm, List.map_append, List.map_cons] at hkeys
    have := (List.nodup_cons.mp (List.nodup_append.mp hkeys).2.1).1
    exact this (by rw [← heq]; exact List.mem_map.mpr ⟨kv, hkv, rfl⟩)

/-- When the key is written as `FieldsMap` holds it: for a pointer to a struct whose
type has pairwise distinct lowercased keys, an exported field `f` whose type is a slice
type or has a name, and a value `v` of the type of `f` under the key that is the
lowercased exposed key of `f`: whenever `MapToStruct` returns nil on a mapping holding
that entry, `f` holds `v` afterwards; and on the mapping of that one entry
`MapToStruct` does return nil, with `f` set to `v` and every other field as it was. -/
theorem MapToStruct_sets_field_under_lowercased_key (env : Env) (structMap : List (GoType × structInfo))
    (st : GoType) (fs : List Data) (m : List (String × Option Value))
    (i : Nat) (f : StructField) (dv : Data)
    (hc : CacheOK env structMap) (hk : st.kind = .struct) (hnd : (lowerKeys env st).Nodup)
    (hlen : fs.length = st.fields.length)
    (hf : st.fields[i]? = some f) (hex : f.PkgPath = "")
    (hT : f.Typ.kind = .slice ∨ f.Typ.name ≠ "")
    (hkeys : (m.map Prod.fst).Nodup)
    (hmem : (env.ToLower (exposedKey env f), some ⟨f.Typ, dv⟩) ∈ m) :
    (∀ struc2 c2,
      MapToStruct env structMap m (some ⟨.ptr st, .ref (.seq fs)⟩) = (.ok (none, struc2), c2) →
      ∃ fs2, struc2 = some ⟨.ptr st, .ref (.seq fs2)⟩ ∧ fs2.length = fs.length ∧
        fs2[i]? = some dv) ∧
    (MapToStruct env structMap [(env.ToLower (exposedKey env f), some ⟨f.Typ, dv⟩)]
        (some ⟨.ptr st, .ref (.seq fs)⟩)).1
      = .ok (none, some ⟨.ptr st, .ref (.seq (fs.set i dv))⟩) := by
  have hi : Indirect (ValueOf (some ⟨.ptr st, .ref (.seq fs)⟩)) = some ⟨st, .seq fs, true, false⟩ := by
    simp [ValueOf, Indirect, GoType.kind, GoType.elem]
  have hgs := getStructInfo_ok env structMap hc ⟨st, .seq fs, true, false⟩ hk hnd
  have hshape : Shape st fs.length ⟨st, .seq fs, true, false⟩ := ⟨rfl, rfl, rfl, fs, rfl, rfl⟩
  have hil : i < fs.length := by
    rw [hlen]
    by_contra hcon
    rw [List.getElem?_eq_none (by omega)] at hf
    cases hf
  have hhit : mapIndex (metadataOf env st).FieldsMap (env.ToLower (exposedKey env f)) = some ⟨exposedKey env f, i⟩ := by
    have := lookup_hit env st.fields 0 i f hnd hf
    simpa [metadataOf] using this
  constructor
  · intro struc2 c2 hres
    obtain ⟨pre, post, hm, hpre, hpost⟩ := split_at_key m _ _ hkeys hmem
    simp only [MapToStruct, hi, hgs] at hres
    cases hl : MapToStruct.loop env (metadataOf env st) ⟨st, .seq fs, true, false⟩ m with
    | error p => rw [hl] at hres; simp at hres
    | ok r =>
      obtain ⟨err, val2⟩ := r
      rw [hl] at hres
      simp only [Prod.mk.injEq, Except.ok.injEq] at hres
      obtain ⟨⟨herr, hstruc⟩, _⟩ := hres
      subst herr
      rw [hm, loop_append] at hl
      cases hp : MapToStruct.loop env (metadataOf env st) ⟨st, .seq fs, true, false⟩ pre with
      | error p => rw [hp] at hl; cases hl
      | ok r1 =>
        obtain ⟨e1, val1⟩ := r1
        rw [hp] at hl
        cases e1 with
        | some e => simp at hl
        | none =>
          simp only at hl
          obtain ⟨hs1, _⟩ := loop_preserve env st fs.length i f hf pre _ val1 none hshape hpre hp
          have hent := entry_good env st fs.length val1 hs1 hk i (exposedKey env f) f hf hex hT dv
          simp only [MapToStruct.loop, hhit, hent] at hl
          have hs1b := setField_shape st fs.length val1 hs1 i dv
          obtain ⟨hs2, hfield⟩ := loop_preserve env st fs.length i f hf post _ val2 none hs1b hpost hl
          obtain ⟨_, _, _, fs1, hd1, hl1⟩ := hs1
          obtain ⟨_, _, _, fs2, hd2, hl2⟩ := hs2
          refine ⟨fs2, ?_, hl2, ?_⟩
          · rw [← hstruc]
            simp [writeBack, GoType.kind, hd2]
          · simp only [hd1, hd2] at hfield
            rw [setField_field_same fs1 i dv (by omega)] at hfield
            simp only [Data.field, List.getD] at hfield
            have hi2 : i < fs2.length := by omega
            rw [List.get?_eq_getElem?, List.getElem?_eq_getElem hi2] at hfield
            rw [List.getElem?_eq_getElem hi2]
            simpa using hfield
  · have hent := entry_good env st fs.length ⟨st, .seq fs, true, false⟩ hshape hk i
      (exposedKey env f) f hf hex hT dv
    simp only [MapToStruct, hi, hgs, MapToStruct.loop, hhit, hent, writeBack, GoType.kind,
      if_true, Data.setField]

end reflect

theorem ite_pred {α : Type} (P : α → Prop) (c : Prop) [Decidable c] (a b : α)
    (ha : P a) (hb : P b) : P (if c then a else b) := by
  split_ifs <;> assumption

theorem cassaType_range (i : Option Value) : IsNativeOrCustom (cassaType i) := by
  unfold cassaType
  apply ite_pred IsNativeOrCustom _ _ _ (by simp [IsNativeOrCustom])
  apply ite_pred IsNativeOrCustom _ _ _ (by simp [IsNativeOrCustom])
  apply ite_pred IsNativeOrCustom _ _ _ (by simp [IsNativeOrCustom])
  apply ite_pred IsNativeOrCustom _ _ _ (by simp [IsNativeOrCustom])
  apply ite_pred IsNativeOrCustom _ _ _ (by simp [IsNativeOrCustom])
  apply ite_pred IsNativeOrCustom _ _ _ (by simp [IsNativeOrCustom])
  apply ite_pred IsNativeOrCustom _ _ _ (by simp [IsNativeOrCustom])
  apply ite_pred IsNativeOrCustom _ _ _ (by simp [IsNativeOrCustom])
  apply ite_pred IsNativeOrCustom _ _ _ (by simp [IsNativeOrCustom])
  apply ite_pred IsNativeOrCustom _ _ _ (by simp [IsNativeOrCustom])
  split <;> simp [IsNativeOrCustom]

theorem native_name (ct : gocql.NativeType) (h : IsNativeOrCustom ct) :
    cassaTypeToString (if ct = .TypeCustom then .TypeVarchar else ct)
      = ((if ct = .TypeCustom then gocql.NativeType.TypeVarchar else ct).String, none) := by
  rcases h with h | h | h | h | h | h | h | h | h | h | h <;> subst h <;> rfl

theorem kind_of_value (x : Value) : RValue.kind (ValueOf (some x)) = x.typ.kind := rfl

theorem stringTypeOf_scalar_path (i : Option Value)
    (hm : RValue.kind (ValueOf i) ≠ .map)
    (hs : RValue.kind (ValueOf i) ≠ .slice ∨ TypeOf i = some (.slice (.basic .uint8))) :
    stringTypeOf i = .ok (cassaTypeToString
      (if cassaType i = .TypeCustom then .TypeVarchar else cassaType i)) := by
  cases i with
  | none => rfl
  | some x =>
    by_cases hb : TypeOf (some x) = some (.slice (.basic .uint8))
    · simp [stringTypeOf, hb]
    · have hs2 : RValue.kind (ValueOf (some x)) ≠ .slice := by
        rcases hs with h | h
        · exact h
        · exact absurd h hb
      simp only [stringTypeOf, hb, decide_False, Bool.not_false, if_true]

/-- C8. Classification table: a value whose dynamic type is one of the table types
classifies as the listed native type, whatever its payload, and a value of a struct
type other than `time.Time` classifies as Custom. -/
theorem cassaType_table :
    (∀ d, cassaType (some ⟨.basic .int, d⟩) = .TypeInt) ∧
    (∀ d, cassaType (some ⟨.basic .int32, d⟩) = .TypeInt) ∧
    (∀ d, cassaType (some ⟨.basic .int64, d⟩) = .TypeBigInt) ∧
    (∀ d, cassaType (some ⟨.basic .string, d⟩) = .TypeVarchar) ∧
    (∀ d, cassaType (some ⟨.basic .float32, d⟩) = .TypeFloat) ∧
    (∀ d, cassaType (some ⟨.basic .float64, d⟩) = .TypeDouble) ∧
    (∀ d, cassaType (some ⟨.basic .bool, d⟩) = .TypeBoolean) ∧
    (∀ d, cassaType (some ⟨timeTime, d⟩) = .TypeTimestamp) ∧
    (∀ d, cassaType (some ⟨gocql.UUID, d⟩) = .TypeUUID) ∧
    (∀ d, cassaType (some ⟨.slice (.basic .uint8), d⟩) = .TypeBlob) ∧
    (∀ d, cassaType (some ⟨Counter, d⟩) = .TypeCounter) ∧
    (∀ t d, t.kind = .struct → t ≠ timeTime → cassaType (some ⟨t, d⟩) = .TypeCustom) := by
  refine ⟨fun _ => rfl, fun _ => rfl, fun _ => rfl, fun _ => rfl, fun _ => rfl, fun _ => rfl,
    fun _ => rfl, fun _ => rfl, fun _ => rfl, fun _ => rfl, fun _ => rfl, ?_⟩
  intro t d hk ht
  have h1 : ∀ b : Basic, t ≠ .basic b := by
    intro b hb; subst hb; cases b <;> simp [GoType.kind, Basic.kind] at hk
  have h2 : t ≠ gocql.UUID := by
    intro hb; subst hb; simp [gocql.UUID, GoType.kind] at hk
  have h3 : t ≠ .slice (.basic .uint8) := by
    intro hb; subst hb; simp [GoType.kind] at hk
  have h4 : t ≠ Counter := by
    intro hb; subst hb; simp [Counter, GoType.kind, Basic.kind] at hk
  simp only [cassaType, TypeOf, Option.map_some', Option.some.injEq, h1, ht, h2, h3, h4,
    or_self, if_false, kind_of_value, hk]

/-- Claim C8 on the examples of the specification: the empty struct is Custom, 42 is Int, a string is Varchar and a byte slice is Blob. -/
theorem cassaType_table_witness :
    ((GoType.struct .nil).kind = .struct ∧ GoType.struct .nil ≠ timeTime) ∧
    cassaType (some ⟨.struct .nil, .seq []⟩) = .TypeCustom ∧
    cassaType (some ⟨.basic .int, .int 42⟩) = .TypeInt ∧
    cassaType (some ⟨.basic .string, .str "x"⟩) = .TypeVarchar ∧
    cassaType (some ⟨.slice (.basic .uint8), .seq [.int 1, .int 2]⟩) = .TypeBlob :=
  ⟨⟨by decide, by decide⟩,
    cassaType_table.2.2.2.2.2.2.2.2.2.2.2 (.struct .nil) (.seq []) (by decide) (by decide),
    cassaType_table.1 _, cassaType_table.2.2.2.1 _, cassaType_table.2.2.2.2.2.2.2.2.2.1 _⟩

/-- C10. List type names: for a slice value other than `[]byte`, whatever its payload
(nil and empty included), `stringTypeOf` returns no error and the text `list<T>`, `T`
being the name `cassaTypeToString` gives for the classification of the zero value of
the element type, with Custom rewritten to Varchar. -/
theorem stringTypeOf_list_names (x : Value) (hs : x.typ.kind = .slice)
    (hb : x.typ ≠ .slice (.basic .uint8)) :
    ∃ elemT name, x.typ.elem = some elemT ∧
      cassaTypeToString
        (if cassaType (zeroInterface elemT) = .TypeCustom then .TypeVarchar
         else cassaType (zeroInterface elemT)) = (name, none) ∧
      stringTypeOf (some x) = .ok ("list<" ++ name ++ ">", none) := by
  obtain ⟨elemT, he⟩ := elem_of_slice x.typ hs
  refine ⟨elemT, _, he, native_name _ (cassaType_range _), ?_⟩
  simp only [stringTypeOf, TypeOf, Option.map_some', Option.some.injEq, hb, decide_False,
    Bool.not_false, if_true, kind_of_value, hs, he]

namespace reflect

theorem take_set_drop {α : Type} (cur : List α) :
    ∀ (fs : List α) (i : Nat) (_ : i < cur.length) (hf : i < fs.length),
    (cur.set i (fs.get ⟨i, hf⟩)).take (i + 1) ++ fs.drop (i + 1) = cur.take i ++ fs.drop i := by
  induction cur with
  | nil => intro fs i hc; simp at hc
  | cons a cur ih =>
    intro fs i hc hf
    cases fs with
    | nil => simp at hf
    | cons b fs =>
      cases i with
      | zero => simp
      | succ i =>
        simp only [List.length_cons, Nat.add_lt_add_iff_right] at hc hf
        simpa using ih fs i hc hf

theorem round_trip_loop (env : Env) (st : GoType) (hk : st.kind = .struct)
    (hnd : (lowerKeys env st).Nodup) (fs : List Data) (hlen : fs.length = st.fields.length)
    (hfields : ∀ f ∈ st.fields, f.PkgPath = "" ∧ (f.Typ.kind = .slice ∨ f.Typ.name ≠ "") ∧
      f.Typ.kind ≠ .interface ∧ env.ToLower (exposedKey env f) = exposedKey env f) :
    ∀ (rest pre : List StructField) (cur : List Data),
    st.fields = pre ++ rest → cur.length = st.fields.length →
    MapToStruct.loop env (metadataOf env st) ⟨st, .seq cur, true, false⟩
        (exportedEntries env (.seq fs) pre.length rest)
      = .ok (none, ⟨st, .seq (cur.take pre.length ++ fs.drop pre.length), true, false⟩) := by
  intro rest
  induction rest with
  | nil =>
    intro pre cur hf hcur
    have hp : pre.length = st.fields.length := by rw [hf]; simp
    simp only [exportedEntries, MapToStruct.loop]
    rw [List.take_of_length_le (by omega), List.drop_of_length_le (by omega), List.append_nil]
  | cons f rest ih =>
    intro pre cur hf hcur
    have hmem : f ∈ st.fields := by rw [hf]; simp
    obtain ⟨hex, hT, hni, hlow⟩ := hfields f hmem
    have hget : st.fields[pre.length]? = some f := by
      rw [hf, List.getElem?_append_right (le_refl _)]; simp
    have hlt : pre.length < st.fields.length := by rw [hf]; simp
    have hhit : mapIndex (metadataOf env st).FieldsMap (exposedKey env f)
        = some ⟨exposedKey env f, pre.length⟩ := by
      have := lookup_hit env st.fields 0 pre.length f hnd hget
      rw [hlow] at this
      simpa [metadataOf] using this
    have hshape : Shape st st.fields.length ⟨st, .seq cur, true, false⟩ :=
      ⟨rfl, rfl, rfl, cur, rfl, hcur⟩
    have hent := entry_good env st st.fields.length _ hshape hk pre.length (exposedKey env f) f
      hget hex hT ((Data.seq fs).field pre.length)
    have hf2 : st.fields = (pre ++ [f]) ++ rest := by rw [hf]; simp
    have hl2 : (pre ++ [f]).length = pre.length + 1 := by simp
    have hih := ih (pre ++ [f]) (cur.set pre.length ((Data.seq fs).field pre.length)) hf2
      (by simp [hcur])
    rw [hl2] at hih
    simp only [exportedEntries, hex, if_true, interfaceOf, hni, if_false, MapToStruct.loop, hhit,
      hent, Data.setField, hih]
    congr 3
    have hfl : pre.length < fs.length := by omega
    have hcl : pre.length < cur.length := by omega
    have h1 : (Data.seq fs).field pre.length = fs.get ⟨pre.length, hfl⟩ := by
      simp [Data.field, List.getD, List.getElem?_eq_getElem hfl]
    rw [h1]
    exact congrArg Data.seq (take_set_drop cur fs pre.length hcl hfl)

/-- The round trip as far as the code keeps it: for a struct whose fields are all
exported, of a slice type or a named non-interface type (the native types among them),
and whose exposed keys are all lowercase already, `MapToStruct` of the mapping that
`StructToMap` returns sets every field of the target to the field of the source. -/
theorem round_trip_of_lowercase_keys (env : Env) (c c2 : List (GoType × structInfo))
    (st : GoType) (fs target : List Data)
    (hc : CacheOK env c) (hc2 : CacheOK env c2) (hk : st.kind = .struct) (hnd : (lowerKeys env st).Nodup)
    (hlen : fs.length = st.fields.length) (htl : target.length = st.fields.length)
    (hfields : ∀ f ∈ st.fields, f.PkgPath = "" ∧ (f.Typ.kind = .slice ∨ f.Typ.name ≠ "") ∧
      f.Typ.kind ≠ .interface ∧ env.ToLower (exposedKey env f) = exposedKey env f) :
    ∃ m, (StructToMap env c (some ⟨st, .seq fs⟩)).1 = .ok (some m, true) ∧
      (MapToStruct env c2 m (some ⟨.ptr st, .ref (.seq target)⟩)).1
        = .ok (none, some ⟨.ptr st, .ref (.seq fs)⟩) := by
  refine ⟨exportedEntries env (.seq fs) 0 st.fields, ?_, ?_⟩
  · exact StructToMap_of_struct env c hc (some ⟨st, .seq fs⟩) ⟨st, .seq fs, false, false⟩
      (by simp [ValueOf, Indirect, hk]) hk rfl hnd
  · have hi : Indirect (ValueOf (some ⟨.ptr st, .ref (.seq target)⟩))
        = some ⟨st, .seq target, true, false⟩ := by
      simp [ValueOf, Indirect, GoType.kind, GoType.elem]
    have hloop := round_trip_loop env st hk hnd fs hlen hfields st.fields [] target rfl htl
    simp only [List.length_nil, List.take_zero, List.nil_append, List.drop_zero] at hloop
    simp only [MapToStruct, hi, getStructInfo_ok env c2 hc2 ⟨st, .seq target, true, false⟩ hk hnd,
      hloop, writeBack, GoType.kind, if_true]

theorem FieldsAndValues_loop_eq (env : Env) (sv : RValue) (hk : sv.typ.kind = .struct) (hro : sv.ro = false) :
    ∀ (rest pre : List StructField),
    sv.typ.fields = pre ++ rest → (∀ f ∈ rest, f.PkgPath = "") →
    FieldsAndValues.loop sv (entriesFrom env pre.length rest)
      = .ok ((exportedEntries env sv.data pre.length rest).map Prod.fst,
             (exportedEntries env sv.data pre.length rest).map Prod.snd) := by
  intro rest
  induction rest with
  | nil => intro pre _ _; simp [entriesFrom, FieldsAndValues.loop, exportedEntries]
  | cons f rest ih =>
    intro pre hfields hex
    have hget : sv.typ.fields[pre.length]? = some f := by
      rw [hfields, List.getElem?_append_right (le_refl _)]; simp
    have hfields2 : sv.typ.fields = (pre ++ [f]) ++ rest := by
      rw [hfields]; simp
    have hlen : (pre ++ [f]).length = pre.length + 1 := by simp
    have hf := hex f (List.mem_cons_self _ _)
    have hih := ih (pre ++ [f]) hfields2 (fun g hg => hex g (List.mem_cons_of_mem _ hg))
    rw [hlen] at hih
    simp [entriesFrom, FieldsAndValues.loop, Field_eq sv hk _ f hget, hro, RValue.Interface,
      exportedEntries, hf, hih]

/-- The parallel-array view as far as the code keeps it: for a struct whose fields are
all exported and whose lowercased keys are pairwise distinct, `FieldsAndValues` returns
ok = true with the keys and the values, in declaration order, of the entries of the
mapping `StructToMap` returns. -/
theorem FieldsAndValues_of_exported_fields (env : Env) (c : List (GoType × structInfo)) (st : GoType)
    (d : Data) (hc : CacheOK env c) (hk : st.kind = .struct) (hnd : (lowerKeys env st).Nodup)
    (hex : ∀ f ∈ st.fields, f.PkgPath = "") :
    ∃ mapVal : List (String × Option Value),
      (StructToMap env c (some ⟨st, d⟩)).1 = .ok (some mapVal, true) ∧
      (FieldsAndValues env c (some ⟨st, d⟩)).1
        = .ok (some (mapVal.map Prod.fst), some (mapVal.map Prod.snd), true) := by
  refine ⟨exportedEntries env d 0 st.fields, ?_, ?_⟩
  · exact StructToMap_of_struct env c hc (some ⟨st, d⟩) ⟨st, d, false, false⟩
      (by simp [ValueOf, Indirect, hk]) hk rfl hnd
  · have hi : Indirect (ValueOf (some ⟨st, d⟩)) = some ⟨st, d, false, false⟩ := by
      simp [ValueOf, Indirect, hk]
    have hloop := FieldsAndValues_loop_eq env ⟨st, d, false, false⟩ hk rfl st.fields [] rfl hex
    simp only [List.length_nil] at hloop
    simp only [FieldsAndValues, hi, RValue.kind, hk, ne_eq, not_true_eq_false, if_false,
      getStructInfo_ok env c hc ⟨st, d, false, false⟩ hk hnd, metadataOf, hloop]

/-- Claim C1, at the failing input: for `r = Person{Name: "Ann"}`, `StructToMap(r)` is
the mapping with the one entry `Name: "Ann"`, and `MapToStruct` of that mapping into a
pointer to a zero `Person` returns nil and leaves `Name` empty, because the lookup key
`Name` is not lowercased while the keys of `FieldsMap` are. -/
theorem round_trip_loses_field_with_default_key :
    StructToMap plainEnv [] (some ⟨personStruct, .seq [.str "Ann"]⟩)
      = (.ok (some [("Name", some ⟨.basic .string, .str "Ann"⟩)], true), personCache) ∧
    MapToStruct plainEnv personCache [("Name", some ⟨.basic .string, .str "Ann"⟩)]
        (some ⟨.ptr personStruct, .ref personStruct.zero⟩)
      = (.ok (none, some ⟨.ptr personStruct, .ref (.seq [.str ""])⟩), personCache) ∧
    Data.str "" ≠ Data.str "Ann" := by
  refine ⟨by rfl, by rfl, ?_⟩
  intro h
  injection h with h
  exact absurd h (by decide)

/-- Claim C2, at the failing input: the field `Name` of `Person` has the exposed key
`Name`, and the keys `name`, `Name` and `NAME` are all equal to it after lowercasing.
The entry under `name` sets the field.  The entries under `Name` and under `NAME` are
skipped: `MapToStruct` returns nil and `Name` stays empty, because the lookup key is
not lowercased (reflect.go:52) while the keys of `FieldsMap` are (reflect.go:174). -/
theorem MapToStruct_skips_key_in_other_letter_case :
    exposedKey plainEnv ⟨"Name", "", "", .basic .string⟩ = "Name" ∧
    plainEnv.ToLower "name" = plainEnv.ToLower "Name" ∧
    plainEnv.ToLower "NAME" = plainEnv.ToLower "Name" ∧
    MapToStruct plainEnv [] [("name", some ⟨.basic .string, .str "Ann"⟩)]
        (some ⟨.ptr personStruct, .ref personStruct.zero⟩)
      = (.ok (none, some ⟨.ptr personStruct, .ref (.seq [.str "Ann"])⟩), personCache) ∧
    MapToStruct plainEnv [] [("Name", some ⟨.basic .string, .str "Ann"⟩)]
        (some ⟨.ptr personStruct, .ref personStruct.zero⟩)
      = (.ok (none, some ⟨.ptr personStruct, .ref (.seq [.str ""])⟩), personCache) ∧
    MapToStruct plainEnv [] [("NAME", some ⟨.basic .string, .str "Ann"⟩)]
        (some ⟨.ptr personStruct, .ref personStruct.zero⟩)
      = (.ok (none, some ⟨.ptr personStruct, .ref (.seq [.str ""])⟩), personCache) ∧
    Data.str "" ≠ Data.str "Ann" := by
  refine ⟨by decide, by decide, by decide, by rfl, by rfl, by rfl, ?_⟩
  intro h
  injection h with h
  exact absurd h (by decide)

/-- A field and a value of the same type without name: the key `p` is the lowercased
exposed key of the field `P` of type `*int` and the value is a `*int`, yet
`MapToStruct` returns the "WTF" error (reflect.go:86-87) and leaves the field nil. -/
theorem matched_field_of_unnamed_type_not_set :
    MapToStruct plainEnv [] [("p", some ⟨.ptr (.basic .int), .ref (.int 7)⟩)]
        (some ⟨.ptr pointerStruct, .ref (.seq [.nil])⟩)
      = (.ok (some (.wtf .ptr .ptr), some ⟨.ptr pointerStruct, .ref (.seq [.nil])⟩),
          [(pointerStruct, ⟨[("p", ⟨"p", 0⟩)], [⟨"p", 0⟩]⟩)]) := by
  rfl

/-- On a struct with the field `Name` under the key `name`, the entry `name: "Ann"` sets `Name`. -/
theorem MapToStruct_sets_field_under_lowercased_key_example :
    (CacheOK plainEnv [] ∧ secretStruct.kind = .struct ∧ (lowerKeys plainEnv secretStruct).Nodup) ∧
    (MapToStruct plainEnv [] [("name", some ⟨.basic .string, .str "Ann"⟩)]
        (some ⟨.ptr secretStruct, .ref (.seq [.str "", .int 0])⟩)).1
      = .ok (none, some ⟨.ptr secretStruct, .ref (.seq [.str "Ann", .int 0])⟩) :=
  ⟨⟨by decide, by decide, by decide⟩,
    (MapToStruct_sets_field_under_lowercased_key plainEnv [] secretStruct [.str "", .int 0]
      [("name", some ⟨.basic .string, .str "Ann"⟩)] 0
      ⟨"Name", "", "cql:\"name\"", .basic .string⟩ (.str "Ann")
      (by decide) (by decide) (by decide) rfl rfl rfl (Or.inr (by decide)) (by decide)
      (List.mem_singleton.mpr rfl)).2⟩

/-- Claim C3, counterexample: the target struct has the keys `id` and `ID`; the key
`nonexistent` matches no field, yet `MapToStruct` does not return: building the
metadata of the target panics. -/
theorem unknown_key_on_clashing_struct_panics :
    MapToStruct plainEnv [] [("nonexistent", some ⟨.basic .int, .int 1⟩)]
        (some ⟨.ptr clashStruct, .ref (.seq [.int 0, .int 0])⟩)
      = (.error (.duplicatedKey "ID" clashStruct), []) := by
  rfl

/-- Claim C3 as amended, on a struct with distinct keys: the mapping with the one key `nonexistent` leaves the target as it was. -/
theorem MapToStruct_unknown_keys_ignored_witness :
    (CacheOK plainEnv [] ∧ secretStruct.kind = .struct ∧ (lowerKeys plainEnv secretStruct).Nodup ∧
      ∀ kv ∈ [("nonexistent", some (Value.mk (.basic .int) (.int 1)))],
        ∀ f ∈ secretStruct.fields,
          plainEnv.ToLower kv.1 ≠ plainEnv.ToLower (exposedKey plainEnv f) ∧
          kv.1 ≠ plainEnv.ToLower (exposedKey plainEnv f)) ∧
    (MapToStruct plainEnv [] [("nonexistent", some ⟨.basic .int, .int 1⟩)]
        (some ⟨.ptr secretStruct, .ref (.seq [.str "Ann", .int 7])⟩)).1
      = .ok (none, some ⟨.ptr secretStruct, .ref (.seq [.str "Ann", .int 7])⟩) := by
  have hm : ∀ kv ∈ [("nonexistent", some (Value.mk (.basic .int) (.int 1)))],
      ∀ f ∈ secretStruct.fields,
        plainEnv.ToLower kv.1 ≠ plainEnv.ToLower (exposedKey plainEnv f) ∧
        kv.1 ≠ plainEnv.ToLower (exposedKey plainEnv f) := by
    intro kv hkv f hf
    simp only [List.mem_singleton] at hkv
    subst hkv
    simp only [secretStruct, GoType.fields, FieldList.toList, List.mem_cons,
      List.mem_singleton, List.not_mem_nil, or_false] at hf
    rcases hf with hf | hf <;> subst hf <;> decide
  exact ⟨⟨by decide, by decide, by decide, hm⟩,
    (MapToStruct_unknown_keys_ignored plainEnv [] secretStruct (.seq [.str "Ann", .int 7])
      [("nonexistent", some ⟨.basic .int, .int 1⟩)] (by decide) (by decide) (by decide) hm).1⟩

/-- Claim C5 on a struct with the keys `id` and `ID`, in the empty cache: `getStructInfo` panics and the cache stays empty. -/
theorem duplicate_key_panics_witness :
    (clashStruct.kind = .struct ∧ mapIndex ([] : List (GoType × structInfo)) clashStruct = none) ∧
    ∃ key, key ∈ clashStruct.fields.map (exposedKey plainEnv) ∧
      getStructInfo plainEnv [] (some ⟨clashStruct, .seq [.int 1, .int 2], false, false⟩)
        = (.error (.duplicatedKey key clashStruct), []) := by
  refine ⟨⟨by decide, rfl⟩, ?_⟩
  obtain ⟨key, h1, h2, _⟩ := (duplicate_key_panics plainEnv [] clashStruct (.seq [.int 1, .int 2]) []
    (by decide) rfl).1
    ⟨0, 1, ⟨"A", "", "id", .basic .int⟩, ⟨"B", "", "ID", .basic .int⟩, by decide, rfl, rfl, by decide⟩
  exact ⟨key, h1, h2⟩

/-- Claim C6, counterexample: for a struct value whose type has the keys `id` and `ID`,
`StructToMap` does not return a mapping: it panics. -/
theorem StructToMap_on_clashing_struct_panics :
    StructToMap plainEnv [] (some ⟨clashStruct, .seq [.int 1, .int 2]⟩)
      = (.error (.duplicatedKey "ID" clashStruct), []) := by
  rfl

/-- Claim C6 as amended, on a struct with an exported and an unexported field: the mapping holds the exported field only. -/
theorem StructToMap_content_witness :
    (CacheOK plainEnv [] ∧ secretStruct.kind = .struct ∧ (lowerKeys plainEnv secretStruct).Nodup) ∧
    (StructToMap plainEnv [] (some ⟨secretStruct, .seq [.str "Ann", .int 7]⟩)).1
      = .ok (some [("name", some ⟨.basic .string, .str "Ann"⟩)], true) := by
  refine ⟨⟨by decide, by decide, by decide⟩, ?_⟩
  obtain ⟨mapVal, h1, _, _, _⟩ := StructToMap_content plainEnv [] secretStruct (.seq [.str "Ann", .int 7])
    (by decide) (by decide) (by decide)
  rfl

/-- Claim C7, at the failing input: for a struct value with the unexported field
`secret`, `StructToMap` returns the mapping of the exported field, while
`FieldsAndValues` panics in `Value.Interface` on the unexported field. -/
theorem FieldsAndValues_panics_on_unexported_field :
    (StructToMap plainEnv [] (some ⟨secretStruct, .seq [.str "Ann", .int 7]⟩)).1
      = .ok (some [("name", some ⟨.basic .string, .str "Ann"⟩)], true) ∧
    (FieldsAndValues plainEnv [] (some ⟨secretStruct, .seq [.str "Ann", .int 7]⟩)).1
      = .error (.reflection "Value.Interface") := by
  exact ⟨by rfl, by rfl⟩

end reflect

/-- Claim C10 on a slice of a custom struct type, named `list<varchar>`, and on a nil `[]int64`, named `list<bigint>`. -/
theorem stringTypeOf_list_names_witness :
    ((GoType.slice customStruct).kind = .slice ∧
      GoType.slice customStruct ≠ .slice (.basic .uint8)) ∧
    stringTypeOf (some ⟨.slice customStruct, .seq [.seq [.int 1]]⟩) = .ok ("list<varchar>", none) ∧
    stringTypeOf (some ⟨.slice (.basic .int64), .nil⟩) = .ok ("list<bigint>", none) := by
  refine ⟨⟨by decide, by decide⟩, ?_, by rfl⟩
  obtain ⟨elemT, name, _, _, h⟩ := stringTypeOf_list_names
    ⟨.slice customStruct, .seq [.seq [.int 1]]⟩ (by decide) (by decide)
  rfl

theorem key_elem_of_map : ∀ t : GoType, t.kind = .map →
    ∃ k e, t.key = some k ∧ t.elem = some e
  | .basic b, h => by cases b <;> simp [GoType.kind, Basic.kind] at h
  | .named _ _ u, h => by
    have := key_elem_of_map u (by simpa [GoType.kind] using h)
    simpa [GoType.key, GoType.elem] using this
  | .array _ _, h => by simp [GoType.kind] at h
  | .slice _, h => by simp [GoType.kind] at h
  | .ptr _, h => by simp [GoType.kind] at h
  | .map k e, _ => ⟨k, e, rfl, rfl⟩
  | .chan _, h => by simp [GoType.kind] at h
  | .func _, h => by simp [GoType.kind] at h
  | .iface _, h => by simp [GoType.kind] at h
  | .struct _, h => by simp [GoType.kind] at h

theorem native_canonical (ct : gocql.NativeType) (h : IsNativeOrCustom ct)
    (hc : ct ≠ .TypeCustom) :
    cassaTypeToString ct = (ct.String, none) ∧ ct.String ∈ canonicalNames := by
  rcases h with h | h | h | h | h | h | h | h | h | h | h <;> subst h <;>
    first
    | exact absurd rfl hc
    | exact ⟨rfl, by decide⟩

theorem rewritten_canonical (ct : gocql.NativeType) (h : IsNativeOrCustom ct) :
    cassaTypeToString (if ct = .TypeCustom then .TypeVarchar else ct)
      = ((if ct = .TypeCustom then gocql.NativeType.TypeVarchar else ct).String, none) ∧
    (if ct = .TypeCustom then gocql.NativeType.TypeVarchar else ct).String ∈ canonicalNames := by
  rcases h with h | h | h | h | h | h | h | h | h | h | h <;> subst h <;>
    exact ⟨rfl, by decide⟩

theorem not_byte_slice_of_map (x : Value) (hk : x.typ.kind = .map) :
    x.typ ≠ .slice (.basic .uint8) := by
  intro h
  rw [h] at hk
  simp [GoType.kind] at hk

theorem stringTypeOf_map (x : Value) (hk : x.typ.kind = .map) (keyT elemT : GoType)
    (h1 : x.typ.key = some keyT) (h2 : x.typ.elem = some elemT) :
    stringTypeOf (some x) =
      if cassaType (zeroInterface keyT) = .TypeCustom ∨
          cassaType (zeroInterface elemT) = .TypeCustom then
        .ok ("", some (.unsupportedMap x.typ))
      else .ok ("map<" ++ (cassaType (zeroInterface keyT)).String ++ ", " ++
        (cassaType (zeroInterface elemT)).String ++ ">", none) := by
  simp only [stringTypeOf, TypeOf, Option.map_some', Option.some.injEq,
    not_byte_slice_of_map x hk, decide_False, Bool.not_false, if_true, kind_of_value, hk, h1, h2]

theorem ProcessValue_map (env : Env) (x : Value) (hk : x.typ.kind = .map)
    (keyT elemT : GoType) (h1 : x.typ.key = some keyT) (h2 : x.typ.elem = some elemT) :
    ProcessValue env (some x) =
      if cassaType (zeroInterface keyT) = .TypeCustom ∨
          cassaType (zeroInterface elemT) = .TypeCustom then
        .ok (some ⟨.basic .string, .str ""⟩, some (.unsupportedMap x.typ))
      else .ok (some x, none) := by
  simp only [ProcessValue, TypeOf, Option.map_some', Option.some.injEq,
    not_byte_slice_of_map x hk, decide_False, Bool.not_false, if_true, kind_of_value, hk, h1, h2]

/-- C11. Map restriction, mirrored: for a map value, `stringTypeOf` and `ProcessValue`
return an error together, exactly when the key type or the element type of the map
classifies as Custom; when neither does, `stringTypeOf` returns the text `map<K, V>`
with the names `cassaTypeToString` gives for the two classifications, and
`ProcessValue` returns the map as it is. -/
theorem map_restriction_mirrored (env : Env) (x : Value) (hk : x.typ.kind = .map) :
    ∃ keyT elemT, x.typ.key = some keyT ∧ x.typ.elem = some elemT ∧
      ∃ name e1 w e2, stringTypeOf (some x) = .ok (name, e1) ∧
        ProcessValue env (some x) = .ok (w, e2) ∧
        (e1 ≠ none ↔ e2 ≠ none) ∧
        (e1 ≠ none ↔ (cassaType (zeroInterface keyT) = .TypeCustom ∨
          cassaType (zeroInterface elemT) = .TypeCustom)) ∧
        (¬ (cassaType (zeroInterface keyT) = .TypeCustom ∨
            cassaType (zeroInterface elemT) = .TypeCustom) →
          ∃ K V, cassaTypeToString (cassaType (zeroInterface keyT)) = (K, none) ∧
            cassaTypeToString (cassaType (zeroInterface elemT)) = (V, none) ∧
            K ∈ canonicalNames ∧ V ∈ canonicalNames ∧
            name = "map<" ++ K ++ ", " ++ V ++ ">" ∧ w = some x) := by
  obtain ⟨keyT, elemT, h1, h2⟩ := key_elem_of_map x.typ hk
  refine ⟨keyT, elemT, h1, h2, ?_⟩
  rw [stringTypeOf_map x hk keyT elemT h1 h2, ProcessValue_map env x hk keyT elemT h1 h2]
  by_cases hc : cassaType (zeroInterface keyT) = .TypeCustom ∨
      cassaType (zeroInterface elemT) = .TypeCustom
  · rw [if_pos hc, if_pos hc]
    refine ⟨_, _, _, _, rfl, rfl, by simp, by simp [hc], ?_⟩
    intro hn
    exact absurd hc hn
  · rw [if_neg hc, if_neg hc]
    refine ⟨_, _, _, _, rfl, rfl, by simp, by simp [hc], ?_⟩
    intro _
    have hk1 : cassaType (zeroInterface keyT) ≠ .TypeCustom := fun h => hc (Or.inl h)
    have hk2 : cassaType (zeroInterface elemT) ≠ .TypeCustom := fun h => hc (Or.inr h)
    obtain ⟨a1, a2⟩ := native_canonical _ (cassaType_range (zeroInterface keyT)) hk1
    obtain ⟨b1, b2⟩ := native_canonical _ (cassaType_range (zeroInterface elemT)) hk2
    exact ⟨_, _, a1, b1, a2, b2, rfl, rfl⟩

/-- Claim C11 on `map[CustomType]int`, where both functions return the error, and on
`map[string]int64`, named `map<varchar, bigint>` and passed through. -/
theorem map_restriction_mirrored_witness :
    ((GoType.map customStruct (.basic .int)).kind = .map) ∧
    (∃ keyT elemT, (GoType.map customStruct (.basic .int)).key = some keyT ∧
      (GoType.map customStruct (.basic .int)).elem = some elemT) ∧
    stringTypeOf (some ⟨.map customStruct (.basic .int), .nil⟩)
      = .ok ("", some (.unsupportedMap (.map customStruct (.basic .int)))) ∧
    ProcessValue reflect.plainEnv (some ⟨.map customStruct (.basic .int), .nil⟩)
      = .ok (some ⟨.basic .string, .str ""⟩,
          some (.unsupportedMap (.map customStruct (.basic .int)))) ∧
    stringTypeOf (some ⟨.map (.basic .string) (.basic .int64), .nil⟩)
      = .ok ("map<varchar, bigint>", none) := by
  obtain ⟨keyT, elemT, h1, h2, _⟩ := map_restriction_mirrored reflect.plainEnv
    ⟨.map customStruct (.basic .int), .nil⟩ (by decide)
  exact ⟨by decide, ⟨keyT, elemT, h1, h2⟩, by rfl, by rfl, by rfl⟩

theorem ProcessValue_loop_all (env : Env) (elemT : GoType) (ds : List Data)
    (h : ∀ d ∈ ds, env.Marshal (interfaceOf elemT d) ≠ none) :
    ∃ strs, ProcessValue.loop env elemT ds = some strs ∧ strs.length = ds.length ∧
      ∀ (j : Nat) (d : Data), ds[j]? = some d →
        ∃ txt, env.Marshal (interfaceOf elemT d) = some txt ∧ strs[j]? = some (.str txt) := by
  induction ds with
  | nil => exact ⟨[], rfl, rfl, by simp⟩
  | cons d rest ih =>
    obtain ⟨strs, h1, h2, h3⟩ := ih (fun e he => h e (List.mem_cons_of_mem _ he))
    cases hm : env.Marshal (interfaceOf elemT d) with
    | none => exact absurd hm (h d (List.mem_cons_self _ _))
    | some txt =>
      refine ⟨.str txt :: strs, by simp [ProcessValue.loop, hm, h1], by simp [h2], ?_⟩
      intro j e hj
      cases j with
      | zero =>
        simp only [List.getElem?_cons_zero, Option.some.injEq] at hj
        subst hj
        exact ⟨txt, hm, by simp⟩
      | succ j =>
        simp only [List.getElem?_cons_succ] at hj ⊢
        exact h3 j e hj

theorem ProcessValue_loop_fail (env : Env) (elemT : GoType) (ds : List Data)
    (h : ∃ d ∈ ds, env.Marshal (interfaceOf elemT d) = none) :
    ProcessValue.loop env elemT ds = none := by
  induction ds with
  | nil => obtain ⟨d, hd, _⟩ := h; simp at hd
  | cons d rest ih =>
    obtain ⟨e, he, hm⟩ := h
    cases hd : env.Marshal (interfaceOf elemT d) with
    | none => simp [ProcessValue.loop, hd]
    | some txt =>
      rcases List.mem_cons.mp he with h1 | h1
      · subst h1; rw [hm] at hd; cases hd
      · simp [ProcessValue.loop, hd, ih ⟨e, h1, hm⟩]

theorem ProcessValue_slice (env : Env) (x : Value) (elemT : GoType)
    (hk : x.typ.kind = .slice) (hb : x.typ ≠ .slice (.basic .uint8))
    (he : x.typ.elem = some elemT) :
    ProcessValue env (some x) =
      if cassaType (zeroInterface elemT) = .TypeCustom then
        match ProcessValue.loop env elemT x.data.elems with
        | none => .ok (some ⟨.basic .string, .str ""⟩, some .unsupportedTranslation)
        | some result => .ok (some ⟨.slice (.basic .string), .seq result⟩, none)
      else .ok (some x, none) := by
  simp only [ProcessValue, TypeOf, Option.map_some', Option.some.injEq, hb, decide_False,
    Bool.not_false, if_true, kind_of_value, hk, he]

theorem ProcessValue_scalar (env : Env) (x : Value)
    (hs : x.typ.kind ≠ .slice ∨ x.typ = .slice (.basic .uint8)) (hm : x.typ.kind ≠ .map) :
    ProcessValue env (some x) =
      if cassaType (some x) = .TypeCustom then
        match env.Marshal (some x) with
        | none => .ok (some ⟨.basic .string, .str ""⟩, some .marshal)
        | some res => .ok (some ⟨.basic .string, .str res⟩, none)
      else .ok (some x, none) := by
  by_cases hb : x.typ = .slice (.basic .uint8)
  · simp [ProcessValue, TypeOf, hb]
  · have hs2 : x.typ.kind ≠ .slice := by
      rcases hs with h | h
      · exact h
      · exact absurd h hb
    simp only [ProcessValue, TypeOf, Option.map_some', Option.some.injEq, hb, decide_False,
      Bool.not_false, if_true, kind_of_value]

/-- C12. List fallback wire value: for a slice value other than `[]byte` whose element
type classifies as Custom, when `json.Marshal` succeeds on every element `ProcessValue`
returns no error and a `[]string` of the length of the input whose string at each
position is the JSON text of the element at that position; when `json.Marshal` fails on
some element `ProcessValue` returns the error, with the empty string and no sequence. -/
theorem ProcessValue_list_fallback (env : Env) (x : Value) (elemT : GoType)
    (hk : x.typ.kind = .slice) (hb : x.typ ≠ .slice (.basic .uint8))
    (he : x.typ.elem = some elemT) (hc : cassaType (zeroInterface elemT) = .TypeCustom) :
    ((∀ d ∈ x.data.elems, env.Marshal (interfaceOf elemT d) ≠ none) →
      ∃ strs, ProcessValue env (some x) = .ok (some ⟨.slice (.basic .string), .seq strs⟩, none) ∧
        strs.length = x.data.elems.length ∧
        ∀ (j : Nat) (d : Data), x.data.elems[j]? = some d →
          ∃ txt, env.Marshal (interfaceOf elemT d) = some txt ∧ strs[j]? = some (.str txt)) ∧
    ((∃ d ∈ x.data.elems, env.Marshal (interfaceOf elemT d) = none) →
      ProcessValue env (some x)
        = .ok (some ⟨.basic .string, .str ""⟩, some .unsupportedTranslation)) := by
  rw [ProcessValue_slice env x elemT hk hb he, if_pos hc]
  constructor
  · intro h
    obtain ⟨strs, h1, h2, h3⟩ := ProcessValue_loop_all env elemT x.data.elems h
    exact ⟨strs, by rw [h1], h2, h3⟩
  · intro h
    rw [ProcessValue_loop_fail env elemT x.data.elems h]

/-- Claim C12 on `[]int8{1, 2}`, whose element type classifies as Custom: the wire value
is the `[]string` of the two JSON texts. -/
theorem ProcessValue_list_fallback_witness :
    ((GoType.slice (.basic .int8)).kind = .slice ∧
      GoType.slice (.basic .int8) ≠ .slice (.basic .uint8) ∧
      (GoType.slice (.basic .int8)).elem = some (.basic .int8) ∧
      cassaType (zeroInterface (.basic .int8)) = .TypeCustom ∧
      ∀ d ∈ (Data.seq [.int 1, .int 2]).elems,
        jsonEnv.Marshal (interfaceOf (.basic .int8) d) ≠ none) ∧
    ProcessValue jsonEnv (some ⟨.slice (.basic .int8), .seq [.int 1, .int 2]⟩)
      = .ok (some ⟨.slice (.basic .string), .seq [.str "1", .str "2"]⟩, none) := by
  have hall : ∀ d ∈ (Data.seq [.int 1, .int 2]).elems,
      jsonEnv.Marshal (interfaceOf (.basic .int8) d) ≠ none := by
    intro d hd
    simp only [Data.elems, List.mem_cons, List.mem_singleton, List.not_mem_nil, or_false] at hd
    rcases hd with hd | hd <;> subst hd <;> simp [jsonEnv, interfaceOf, GoType.kind, Basic.kind]
  obtain ⟨strs, h1, _, _⟩ := (ProcessValue_list_fallback jsonEnv
    ⟨.slice (.basic .int8), .seq [.int 1, .int 2]⟩ (.basic .int8)
    (by decide) (by decide) rfl (by rfl)).1 hall
  exact ⟨⟨by decide, by decide, rfl, by rfl, hall⟩, by rfl⟩

/-- C13. Wire value pass-through: `ProcessValue(nil)` is nil without error; a `[]byte`, a
slice whose element type does not classify as Custom, and a value that is neither a
slice nor a map and does not classify as Custom come back as they are, without error. -/
theorem ProcessValue_pass_through (env : Env) :
    ProcessValue env none = .ok (none, none) ∧
    (∀ d, ProcessValue env (some ⟨.slice (.basic .uint8), d⟩)
      = .ok (some ⟨.slice (.basic .uint8), d⟩, none)) ∧
    (∀ (x : Value) (elemT : GoType), x.typ.kind = .slice → x.typ.elem = some elemT →
      cassaType (zeroInterface elemT) ≠ .TypeCustom →
      ProcessValue env (some x) = .ok (some x, none)) ∧
    (∀ x : Value, x.typ.kind ≠ .slice → x.typ.kind ≠ .map →
      cassaType (some x) ≠ .TypeCustom →
      ProcessValue env (some x) = .ok (some x, none)) := by
  refine ⟨rfl, fun d => by rfl, ?_, ?_⟩
  · intro x elemT hk he hc
    by_cases hb : x.typ = .slice (.basic .uint8)
    · obtain ⟨t, d⟩ := x
      simp only at hb
      subst hb
      rfl
    · rw [ProcessValue_slice env x elemT hk hb he, if_neg hc]
  · intro x hs hm hc
    rw [ProcessValue_scalar env x (Or.inl hs) hm, if_neg hc]

/-- Claim C13 on a `[]int64`, whose element type is native, and on a `Counter`. -/
theorem ProcessValue_pass_through_witness :
    ((GoType.slice (.basic .int64)).kind = .slice ∧
      cassaType (zeroInterface (.basic .int64)) ≠ .TypeCustom) ∧
    ProcessValue reflect.plainEnv (some ⟨.slice (.basic .int64), .seq [.int 5]⟩)
      = .ok (some ⟨.slice (.basic .int64), .seq [.int 5]⟩, none) ∧
    ProcessValue reflect.plainEnv (some ⟨Counter, .int 3⟩) = .ok (some ⟨Counter, .int 3⟩, none) :=
  ⟨⟨by decide, by decide⟩,
    (ProcessValue_pass_through reflect.plainEnv).2.2.1 ⟨.slice (.basic .int64), .seq [.int 5]⟩
      (.basic .int64) (by decide) rfl (by decide),
    (ProcessValue_pass_through reflect.plainEnv).2.2.2 ⟨Counter, .int 3⟩
      (by decide) (by decide) (by decide)⟩

namespace reflect

theorem getStructInfo_keeps_entries (env : Env) (c : List (GoType × structInfo)) (w : Option RValue)
    (t : GoType) (s : structInfo) (h : mapIndex c t = some s) :
    mapIndex (getStructInfo env c w).2 t = some s := by
  unfold getStructInfo
  cases hi : Indirect w with
  | none => exact h
  | some iv =>
    simp only
    cases hm : mapIndex c iv.typ with
    | some sinfo => exact h
    | none =>
      simp only
      by_cases hk : iv.typ.kind = .struct
      · simp only [hk, ne_eq, not_true_eq_false, if_false]
        cases hl : getStructInfo.loop env iv.typ iv.typ.fields 0 [] [] with
        | error p => exact h
        | ok sinfo =>
          simp only
          have hne : iv.typ ≠ t := by
            intro heq
            rw [heq, h] at hm
            cases hm
          rw [mapIndex_mapAssign_other _ _ _ _ hne]
          exact h
      · simp only [hk, ne_eq, not_false_eq_true, if_true]
        exact h

theorem getStructInfo_cached (env : Env) (c : List (GoType × structInfo)) (v : RValue)
    (hk : v.typ.kind = .struct) (sinfo : structInfo) (h : mapIndex c v.typ = some sinfo) :
    getStructInfo env c (some v) = (.ok sinfo, c) := by
  unfold getStructInfo
  rw [Indirect_struct v hk]
  simp [h]

/-- C14. Idempotent metadata: for a struct type with pairwise distinct lowercased keys
that is not in the cache, `getStructInfo` returns the metadata it builds and stores it
under the type, leaving the entry of every other type as it was; in any cache that
holds this entry, a call for a value of the type returns the same metadata and the
cache unchanged; and no call of `getStructInfo` modifies or removes an entry. -/
theorem getStructInfo_idempotent (env : Env) (c : List (GoType × structInfo)) (v : RValue)
    (hk : v.typ.kind = .struct) (hnd : (lowerKeys env v.typ).Nodup)
    (hn : mapIndex c v.typ = none) :
    ∃ sinfo, getStructInfo.loop env v.typ v.typ.fields 0 [] [] = .ok sinfo ∧
      getStructInfo env c (some v) = (.ok sinfo, mapAssign c v.typ sinfo) ∧
      mapIndex (mapAssign c v.typ sinfo) v.typ = some sinfo ∧
      (∀ t, t ≠ v.typ → mapIndex (mapAssign c v.typ sinfo) t = mapIndex c t) ∧
      (∀ (c2 : List (GoType × structInfo)) (v2 : RValue), v2.typ = v.typ →
        mapIndex c2 v.typ = some sinfo → getStructInfo env c2 (some v2) = (.ok sinfo, c2)) ∧
      (∀ (c2 : List (GoType × structInfo)) (w : Option RValue) (t : GoType) (s : structInfo),
        mapIndex c2 t = some s → mapIndex (getStructInfo env c2 w).2 t = some s) := by
  refine ⟨metadataOf env v.typ, built_ok env v.typ hnd, getStructInfo_ok_uncached env c v hk hnd hn,
    mapIndex_mapAssign_same _ _ _, ?_, ?_, ?_⟩
  · intro t ht
    exact mapIndex_mapAssign_other _ _ _ _ (Ne.symm ht)
  · intro c2 v2 hv hm
    exact getStructInfo_cached env c2 v2 (hv ▸ hk) _ (hv ▸ hm)
  · intro c2 w t s h
    exact getStructInfo_keeps_entries env c2 w t s h

/-- Claim C14 on the struct of the documentation, first in the empty cache, then in the
cache the first call left. -/
theorem getStructInfo_idempotent_witness :
    (docStruct.kind = .struct ∧ (lowerKeys plainEnv docStruct).Nodup ∧
      mapIndex ([] : List (GoType × structInfo)) docStruct = none) ∧
    ∃ sinfo,
      getStructInfo plainEnv [] (some ⟨docStruct, docStruct.zero, false, false⟩)
        = (.ok sinfo, [(docStruct, sinfo)]) ∧
      getStructInfo plainEnv [(docStruct, sinfo)] (some ⟨docStruct, docStruct.zero, false, false⟩)
        = (.ok sinfo, [(docStruct, sinfo)]) := by
  obtain ⟨sinfo, _, h2, h3, _, h5, _⟩ := getStructInfo_idempotent plainEnv []
    ⟨docStruct, docStruct.zero, false, false⟩ (by decide) (by decide) rfl
  exact ⟨⟨by decide, by decide, rfl⟩, sinfo, h2, h5 _ _ rfl h3⟩

end reflect

/-- C15, as amended. Kind fallback: a value whose type is none of the table types
classifies by its kind, and only the kinds of the table types count: kind `int` or
`int32` gives Int, `int64` BigInt, `string` Varchar, `float32` Float, `float64` Double,
`bool` Boolean; every other kind, the other integer kinds among them, gives Custom. -/
theorem cassaType_kind_fallback (i : Option Value)
    (h : ∀ t ∈ tableTypes, TypeOf i ≠ some t) :
    (RValue.kind (ValueOf i) = .int ∨ RValue.kind (ValueOf i) = .int32 →
      cassaType i = .TypeInt) ∧
    (RValue.kind (ValueOf i) = .int64 → cassaType i = .TypeBigInt) ∧
    (RValue.kind (ValueOf i) = .string → cassaType i = .TypeVarchar) ∧
    (RValue.kind (ValueOf i) = .float32 → cassaType i = .TypeFloat) ∧
    (RValue.kind (ValueOf i) = .float64 → cassaType i = .TypeDouble) ∧
    (RValue.kind (ValueOf i) = .bool → cassaType i = .TypeBoolean) ∧
    (RValue.kind (ValueOf i) ∉ [Kind.int, .int32, .int64, .string, .float32, .float64, .bool] →
      cassaType i = .TypeCustom) := by
  have h1 := h (.basic .int) (by simp [tableTypes])
  have h2 := h (.basic .int32) (by simp [tableTypes])
  have h3 := h (.basic .int64) (by simp [tableTypes])
  have h4 := h (.basic .string) (by simp [tableTypes])
  have h5 := h (.basic .float32) (by simp [tableTypes])
  have h6 := h (.basic .float64) (by simp [tableTypes])
  have h7 := h (.basic .bool) (by simp [tableTypes])
  have h8 := h timeTime (by simp [tableTypes])
  have h9 := h gocql.UUID (by simp [tableTypes])
  have h10 := h (.slice (.basic .uint8)) (by simp [tableTypes])
  have h11 := h Counter (by simp [tableTypes])
  have hc : cassaType i = match RValue.kind (ValueOf i) with
      | .int | .int32 => .TypeInt
      | .int64 => .TypeBigInt
      | .string => .TypeVarchar
      | .float32 => .TypeFloat
      | .float64 => .TypeDouble
      | .bool => .TypeBoolean
      | _ => .TypeCustom := by
    simp only [cassaType, h1, h2, h3, h4, h5, h6, h7, h8, h9, h10, h11, or_self, if_false]
  rw [hc]
  generalize RValue.kind (ValueOf i) = k
  cases k <;> simp

/-- Claim C15 as amended, on a value of the defined type `Name` over `string`, which
classifies as Varchar by its kind. -/
theorem cassaType_kind_fallback_witness :
    (∀ t ∈ tableTypes, TypeOf (some ⟨nameType, .str "a"⟩) ≠ some t) ∧
    cassaType (some ⟨nameType, .str "a"⟩) = .TypeVarchar := by
  have h : ∀ t ∈ tableTypes, TypeOf (some ⟨nameType, .str "a"⟩) ≠ some t := by decide
  exact ⟨h, (cassaType_kind_fallback (some ⟨nameType, .str "a"⟩) h).2.2.1 rfl⟩

/-- Claim C15, counterexample: values of the integer kinds `int8`, `int16`, `uint` and
`uint32`, and of a defined type over `int8`, classify as Custom, not as Int. -/
theorem integer_kinds_outside_table_are_custom :
    cassaType (some ⟨.basic .int8, .int 1⟩) = .TypeCustom ∧
    cassaType (some ⟨.basic .int16, .int 1⟩) = .TypeCustom ∧
    cassaType (some ⟨.basic .uint, .int 1⟩) = .TypeCustom ∧
    cassaType (some ⟨.basic .uint32, .int 1⟩) = .TypeCustom ∧
    cassaType (some ⟨.named "main" "Small" (.basic .int8), .int 1⟩) = .TypeCustom ∧
    gocql.NativeType.TypeCustom ≠ gocql.NativeType.TypeInt :=
  ⟨by rfl, by rfl, by rfl, by rfl, by rfl, by decide⟩

theorem cassaType_slice_custom (x : Value) (hk : x.typ.kind = .slice)
    (hb : x.typ ≠ .slice (.basic .uint8)) : cassaType (some x) = .TypeCustom := by
  have h1 : ∀ b : Basic, x.typ ≠ .basic b := by
    intro b hx; rw [hx] at hk; cases b <;> simp [GoType.kind, Basic.kind] at hk
  have h2 : x.typ ≠ timeTime := by
    intro hx; rw [hx] at hk; simp [timeTime, GoType.kind] at hk
  have h3 : x.typ ≠ gocql.UUID := by
    intro hx; rw [hx] at hk; simp [gocql.UUID, GoType.kind] at hk
  have h4 : x.typ ≠ Counter := by
    intro hx; rw [hx] at hk; simp [Counter, GoType.kind, Basic.kind] at hk
  simp only [cassaType, TypeOf, Option.map_some', Option.some.injEq, h1, h2, h3, hb, h4,
    or_self, if_false, kind_of_value, hk]

theorem stringTypeOf_slice (x : Value) (elemT : GoType) (hk : x.typ.kind = .slice)
    (hb : x.typ ≠ .slice (.basic .uint8)) (he : x.typ.elem = some elemT) :
    stringTypeOf (some x) = .ok ("list<" ++
      (if cassaType (zeroInterface elemT) = .TypeCustom then gocql.NativeType.TypeVarchar
       else cassaType (zeroInterface elemT)).String ++ ">", none) := by
  simp only [stringTypeOf, TypeOf, Option.map_some', Option.some.injEq, hb, decide_False,
    Bool.not_false, if_true, kind_of_value, hk, he]

/-- C9, as amended. Scalar type names: for a value that is not a map and either is not
a slice or has the type `[]byte` itself, `stringTypeOf` returns no error and the
canonical lowercase schema name of the classification of the value, `varchar` standing
for Custom; a `[]byte` value is named `blob`.  A value of another slice type whose
element type is `byte`, such as `net.IP`, is not taken for a `[]byte`: its
classification is Custom and its name is `list<varchar>`. -/
theorem stringTypeOf_scalar_names (i : Option Value) :
    (RValue.kind (ValueOf i) ≠ .map →
      (RValue.kind (ValueOf i) ≠ .slice ∨ TypeOf i = some (.slice (.basic .uint8))) →
      ∃ name, stringTypeOf i = .ok (name, none) ∧
        ((cassaType i = .TypeInt ∧ name = "int") ∨
         (cassaType i = .TypeBigInt ∧ name = "bigint") ∨
         (cassaType i = .TypeVarchar ∧ name = "varchar") ∨
         (cassaType i = .TypeFloat ∧ name = "float") ∨
         (cassaType i = .TypeDouble ∧ name = "double") ∨
         (cassaType i = .TypeBoolean ∧ name = "boolean") ∨
         (cassaType i = .TypeTimestamp ∧ name = "timestamp") ∨
         (cassaType i = .TypeUUID ∧ name = "uuid") ∨
         (cassaType i = .TypeBlob ∧ name = "blob") ∨
         (cassaType i = .TypeCounter ∧ name = "counter") ∨
         (cassaType i = .TypeCustom ∧ name = "varchar"))) ∧
    (TypeOf i = some (.slice (.basic .uint8)) → stringTypeOf i = .ok ("blob", none)) ∧
    (∀ x : Value, i = some x → x.typ.kind = .slice → x.typ ≠ .slice (.basic .uint8) →
      x.typ.elem = some (.basic .uint8) →
      cassaType i = .TypeCustom ∧ stringTypeOf i = .ok ("list<varchar>", none)) := by
  refine ⟨?_, ?_, ?_⟩
  · intro hm hs
    rw [stringTypeOf_scalar_path i hm hs]
    rcases cassaType_range i with h | h | h | h | h | h | h | h | h | h | h <;>
      rw [h] <;> simp [cassaTypeToString]
  · intro hb
    rw [stringTypeOf_scalar_path i (by
      cases i with
      | none => cases hb
      | some x =>
        simp only [TypeOf, Option.map_some', Option.some.injEq] at hb
        rw [kind_of_value, hb]
        decide) (Or.inr hb)]
    have : cassaType i = .TypeBlob := by
      cases i with
      | none => cases hb
      | some x =>
        simp only [TypeOf, Option.map_some', Option.some.injEq] at hb
        obtain ⟨t, d⟩ := x
        simp only at hb
        subst hb
        rfl
    rw [this]
    rfl
  · intro x hi hk hb he
    subst hi
    refine ⟨cassaType_slice_custom x hk hb, ?_⟩
    rw [stringTypeOf_slice x _ hk hb he]
    rfl

/-- Claim C9, counterexample: the value `net.IP{127, 0, 0, 1}` is not a map and its
elements are bytes; its classification is Custom, whose name would be `varchar`, but
`stringTypeOf` names it `list<varchar>`, because only the type `[]byte` itself is
exempted from the slice branch (type.go:16). -/
theorem defined_byte_slice_is_named_as_list :
    RValue.kind (ValueOf (some ⟨netIP, .seq [.int 127, .int 0, .int 0, .int 1]⟩)) ≠ .map ∧
    netIP.elem = some (.basic .uint8) ∧
    cassaType (some ⟨netIP, .seq [.int 127, .int 0, .int 0, .int 1]⟩) = .TypeCustom ∧
    stringTypeOf (some ⟨netIP, .seq [.int 127, .int 0, .int 0, .int 1]⟩)
      = .ok ("list<varchar>", none) ∧
    cassaTypeToString .TypeVarchar = ("varchar", none) ∧
    "list<varchar>" ≠ "varchar" :=
  ⟨by decide, by rfl, by rfl, by rfl, by rfl, by decide⟩

/-- Claim C9 as amended, on a `float64` value, named `double`, on a `[]byte`, named
`blob`, and on a `net.IP`, named `list<varchar>`. -/
theorem stringTypeOf_scalar_names_witness :
    (RValue.kind (ValueOf (some ⟨.basic .float64, .float 0⟩)) ≠ .map ∧
      RValue.kind (ValueOf (some ⟨.basic .float64, .float 0⟩)) ≠ .slice) ∧
    (∃ name, stringTypeOf (some ⟨.basic .float64, .float 0⟩) = .ok (name, none) ∧
      name = "double") ∧
    stringTypeOf (some ⟨.slice (.basic .uint8), .seq [.int 1, .int 2]⟩) = .ok ("blob", none) ∧
    (netIP.kind = .slice ∧ netIP ≠ .slice (.basic .uint8) ∧
      netIP.elem = some (.basic .uint8)) ∧
    stringTypeOf (some ⟨netIP, .seq [.int 127, .int 0, .int 0, .int 1]⟩)
      = .ok ("list<varchar>", none) := by
  refine ⟨⟨by decide, by decide⟩, ?_, ?_, ⟨by decide, by decide, by rfl⟩, ?_⟩
  · obtain ⟨name, h1, h2⟩ := (stringTypeOf_scalar_names (some ⟨.basic .float64, .float 0⟩)).1
      (by decide) (Or.inl (by decide))
    have hc : cassaType (some ⟨.basic .float64, .float 0⟩) = .TypeDouble := by rfl
    rw [hc] at h2
    refine ⟨name, h1, ?_⟩
    rcases h2 with h | h | h | h | h | h | h | h | h | h | h
    all_goals first
      | exact h.2
      | exact absurd h.1 (by decide)
  · exact (stringTypeOf_scalar_names _).2.1 rfl
  · exact ((stringTypeOf_scalar_names _).2.2 ⟨netIP, .seq [.int 127, .int 0, .int 0, .int 1]⟩
      rfl (by decide) (by decide) (by rfl)).2

/-- C18, as amended. Slices and `cassaType`: `cassaType` never looks at the element
type of a slice: a slice value other than `[]byte` classifies as Custom.  The
classification by element is made by the caller: `stringTypeOf` names the slice
`list<E>`, `E` being the name of the classification of the zero value of the element
type, with Custom rewritten to Varchar. -/
theorem cassaType_of_slice_is_custom (x : Value) (hk : x.typ.kind = .slice)
    (hb : x.typ ≠ .slice (.basic .uint8)) :
    cassaType (some x) = .TypeCustom ∧
    ∃ elemT, x.typ.elem = some elemT ∧
      stringTypeOf (some x) = .ok ("list<" ++
        (if cassaType (zeroInterface elemT) = .TypeCustom then gocql.NativeType.TypeVarchar
         else cassaType (zeroInterface elemT)).String ++ ">", none) := by
  obtain ⟨elemT, he⟩ := elem_of_slice x.typ hk
  exact ⟨cassaType_slice_custom x hk hb, elemT, he, stringTypeOf_slice x elemT hk hb he⟩

/-- Claim C18 as amended, on `[]string{"a"}`: Custom for `cassaType`, `list<varchar>` for
`stringTypeOf`. -/
theorem cassaType_of_slice_is_custom_witness :
    ((GoType.slice (.basic .string)).kind = .slice ∧
      GoType.slice (.basic .string) ≠ .slice (.basic .uint8)) ∧
    cassaType (some ⟨.slice (.basic .string), .seq [.str "a"]⟩) = .TypeCustom ∧
    stringTypeOf (some ⟨.slice (.basic .string), .seq [.str "a"]⟩)
      = .ok ("list<varchar>", none) :=
  ⟨⟨by decide, by decide⟩,
    (cassaType_of_slice_is_custom ⟨.slice (.basic .string), .seq [.str "a"]⟩
      (by decide) (by decide)).1, by rfl⟩

/-- Claim C18, counterexample: `cassaType([]int{1})` is Custom, while the classification
of the element type `int` is Int; likewise `[]string` is Custom, not Varchar. -/
theorem slice_does_not_classify_by_element :
    cassaType (some ⟨.slice (.basic .int), .seq [.int 1]⟩) = .TypeCustom ∧
    cassaType (zeroInterface (.basic .int)) = .TypeInt ∧
    cassaType (some ⟨.slice (.basic .string), .seq [.str "a"]⟩) = .TypeCustom ∧
    cassaType (zeroInterface (.basic .string)) = .TypeVarchar ∧
    gocql.NativeType.TypeCustom ≠ gocql.NativeType.TypeInt ∧
    gocql.NativeType.TypeCustom ≠ gocql.NativeType.TypeVarchar :=
  ⟨by rfl, by rfl, by rfl, by rfl, by decide, by decide⟩

theorem stringTypeOf_cases (i : Option Value) :
    (RValue.kind (ValueOf i) ≠ .map ∧
      (RValue.kind (ValueOf i) ≠ .slice ∨ TypeOf i = some (.slice (.basic .uint8)))) ∨
    (∃ x elemT, i = some x ∧ x.typ.kind = .slice ∧ x.typ ≠ .slice (.basic .uint8) ∧
      x.typ.elem = some elemT) ∨
    (∃ x keyT elemT, i = some x ∧ x.typ.kind = .map ∧ x.typ.key = some keyT ∧
      x.typ.elem = some elemT) := by
  cases i with
  | none => left; exact ⟨by simp [ValueOf, RValue.kind], Or.inl (by simp [ValueOf, RValue.kind])⟩
  | some x =>
    by_cases hm : x.typ.kind = .map
    · obtain ⟨k, e, h1, h2⟩ := key_elem_of_map x.typ hm
      exact Or.inr (Or.inr ⟨x, k, e, rfl, hm, h1, h2⟩)
    · by_cases hs : x.typ.kind = .slice
      · by_cases hb : x.typ = .slice (.basic .uint8)
        · left
          exact ⟨by simpa [kind_of_value] using hm, Or.inr (by simp [TypeOf, hb])⟩
        · obtain ⟨e, he⟩ := elem_of_slice x.typ hs
          exact Or.inr (Or.inl ⟨x, e, rfl, hs, hb, he⟩)
      · left
        exact ⟨by simpa [kind_of_value] using hm, Or.inl (by simpa [kind_of_value] using hs)⟩

/-- C19. `stringTypeOf` is total outside maps: it never panics; for a value that is not
of map kind (nil included) it returns no error and one of the ten canonical names or
`list<N>` with `N` one of the ten; and when it returns an error, the error is not the
unknown-type error of `cassaTypeToString` and the value is a map whose key type or
element type classifies as Custom. -/
theorem stringTypeOf_total_outside_maps :
    (∀ i, ∃ r, stringTypeOf i = .ok r) ∧
    (∀ i, RValue.kind (ValueOf i) ≠ .map →
      ∃ name, stringTypeOf i = .ok (name, none) ∧
        (name ∈ canonicalNames ∨ ∃ N ∈ canonicalNames, name = "list<" ++ N ++ ">")) ∧
    (∀ i name e, stringTypeOf i = .ok (name, some e) →
      e ≠ .unknownType ∧
      ∃ x keyT elemT, i = some x ∧ x.typ.kind = .map ∧ x.typ.key = some keyT ∧
        x.typ.elem = some elemT ∧
        (cassaType (zeroInterface keyT) = .TypeCustom ∨
          cassaType (zeroInterface elemT) = .TypeCustom)) := by
  have hscalar : ∀ i, RValue.kind (ValueOf i) ≠ .map →
      (RValue.kind (ValueOf i) ≠ .slice ∨ TypeOf i = some (.slice (.basic .uint8))) →
      ∃ name, stringTypeOf i = .ok (name, none) ∧ name ∈ canonicalNames := by
    intro i hm hs
    rw [stringTypeOf_scalar_path i hm hs]
    obtain ⟨h1, h2⟩ := rewritten_canonical _ (cassaType_range i)
    exact ⟨_, by rw [h1], h2⟩
  have hslice : ∀ (x : Value) (elemT : GoType), x.typ.kind = .slice →
      x.typ ≠ .slice (.basic .uint8) → x.typ.elem = some elemT →
      ∃ N ∈ canonicalNames, stringTypeOf (some x) = .ok ("list<" ++ N ++ ">", none) := by
    intro x elemT hk hb he
    rw [stringTypeOf_slice x elemT hk hb he]
    exact ⟨_, (rewritten_canonical _ (cassaType_range _)).2, rfl⟩
  refine ⟨?_, ?_, ?_⟩
  · intro i
    rcases stringTypeOf_cases i with ⟨hm, hs⟩ | ⟨x, elemT, hi, hk, hb, he⟩ |
        ⟨x, keyT, elemT, hi, hk, h1, h2⟩
    · obtain ⟨name, h, _⟩ := hscalar i hm hs
      exact ⟨_, h⟩
    · subst hi
      obtain ⟨N, _, h⟩ := hslice x elemT hk hb he
      exact ⟨_, h⟩
    · subst hi
      rw [stringTypeOf_map x hk keyT elemT h1 h2]
      split_ifs <;> exact ⟨_, rfl⟩
  · intro i hm
    rcases stringTypeOf_cases i with ⟨_, hs⟩ | ⟨x, elemT, hi, hk, hb, he⟩ |
        ⟨x, keyT, elemT, hi, hk, h1, h2⟩
    · obtain ⟨name, h, hn⟩ := hscalar i hm hs
      exact ⟨name, h, Or.inl hn⟩
    · subst hi
      obtain ⟨N, hN, h⟩ := hslice x elemT hk hb he
      exact ⟨_, h, Or.inr ⟨N, hN, rfl⟩⟩
    · subst hi
      exact absurd hk (by simpa [kind_of_value] using hm)
  · intro i name e h
    rcases stringTypeOf_cases i with ⟨hm, hs⟩ | ⟨x, elemT, hi, hk, hb, he⟩ |
        ⟨x, keyT, elemT, hi, hk, h1, h2⟩
    · obtain ⟨n2, h2, _⟩ := hscalar i hm hs
      rw [h2] at h
      cases h
    · subst hi
      obtain ⟨N, _, h2⟩ := hslice x elemT hk hb he
      rw [h2] at h
      cases h
    · subst hi
      rw [stringTypeOf_map x hk keyT elemT h1 h2] at h
      by_cases hc : cassaType (zeroInterface keyT) = .TypeCustom ∨
          cassaType (zeroInterface elemT) = .TypeCustom
      · rw [if_pos hc] at h
        cases h
        exact ⟨by simp, x, keyT, elemT, rfl, hk, h1, h2, hc⟩
      · rw [if_neg hc] at h
        cases h

/-- Claim C19 on a `uint32`, a pointer and a nested slice: `varchar`, `varchar` and
`list<varchar>`. -/
theorem stringTypeOf_total_outside_maps_witness :
    (RValue.kind (ValueOf (some ⟨.basic .uint32, .int 7⟩)) ≠ .map) ∧
    stringTypeOf (some ⟨.basic .uint32, .int 7⟩) = .ok ("varchar", none) ∧
    stringTypeOf (some ⟨.ptr (.basic .int), .nil⟩) = .ok ("varchar", none) ∧
    stringTypeOf (some ⟨.slice (.slice (.basic .int)), .nil⟩) = .ok ("list<varchar>", none) ∧
    stringTypeOf none = .ok ("varchar", none) := by
  obtain ⟨name, _, _⟩ := stringTypeOf_total_outside_maps.2.1 (some ⟨.basic .uint32, .int 7⟩)
    (by decide)
  exact ⟨by decide, by rfl, by rfl, by rfl, by rfl⟩

/-- C20. Declared type agrees with wire value: when `ProcessValue` returns the value `w`
without error for `x`, it returns `w` without error for `w` too, and `stringTypeOf`
gives for `w` what it gives for `x`.  A custom scalar (a value that is neither a slice
nor a map and classifies as Custom) has for `w` the string of its JSON text, and both
are declared `varchar`; a custom slice (a slice other than `[]byte` whose element type
classifies as Custom) has for `w` the `[]string` of the JSON texts of its elements, and
both are declared `list<varchar>`; every other value is passed through, `w` being `x`. -/
theorem wire_value_keeps_declared_type (env : Env) (x w : Option Value)
    (h : ProcessValue env x = .ok (w, none)) :
    ProcessValue env w = .ok (w, none) ∧ stringTypeOf w = stringTypeOf x ∧
    (∀ v : Value, x = some v → v.typ.kind ≠ .slice → v.typ.kind ≠ .map →
      cassaType x = .TypeCustom →
      ∃ txt, env.Marshal x = some txt ∧ w = some ⟨.basic .string, .str txt⟩ ∧
        stringTypeOf x = .ok ("varchar", none) ∧ stringTypeOf w = .ok ("varchar", none)) ∧
    (∀ (v : Value) (elemT : GoType), x = some v → v.typ.kind = .slice →
      v.typ ≠ .slice (.basic .uint8) → v.typ.elem = some elemT →
      cassaType (zeroInterface elemT) = .TypeCustom →
      ∃ strs, ProcessValue.loop env elemT v.data.elems = some strs ∧
        w = some ⟨.slice (.basic .string), .seq strs⟩ ∧
        stringTypeOf x = .ok ("list<varchar>", none) ∧
        stringTypeOf w = .ok ("list<varchar>", none)) ∧
    (w = x ∨
      (∃ v : Value, x = some v ∧ v.typ.kind ≠ .slice ∧ v.typ.kind ≠ .map ∧
        cassaType x = .TypeCustom) ∨
      (∃ (v : Value) (elemT : GoType), x = some v ∧ v.typ.kind = .slice ∧
        v.typ ≠ .slice (.basic .uint8) ∧ v.typ.elem = some elemT ∧
        cassaType (zeroInterface elemT) = .TypeCustom)) := by
  rcases stringTypeOf_cases x with ⟨hm, hs⟩ | ⟨v, elemT, hi, hk, hb, he⟩ |
      ⟨v, keyT, elemT, hi, hk, h1, h2⟩
  · cases x with
    | none =>
      have : w = none := by
        simp only [ProcessValue, Except.ok.injEq, Prod.mk.injEq, and_true] at h
        exact h.symm
      subst this
      exact ⟨rfl, rfl, fun v hv => (by cases hv), fun v e hv => (by cases hv), Or.inl rfl⟩
    | some v =>
      have hs2 : v.typ.kind ≠ .slice ∨ v.typ = .slice (.basic .uint8) := by
        rcases hs with hs | hs
        · exact Or.inl (by simpa [kind_of_value] using hs)
        · exact Or.inr (by simpa [TypeOf] using hs)
      have hm2 : v.typ.kind ≠ .map := by simpa [kind_of_value] using hm
      have hp := ProcessValue_scalar env v hs2 hm2
      have hnoslice : ∀ (u : Value) (e : GoType), some v = some u → u.typ.kind = .slice →
          u.typ ≠ .slice (.basic .uint8) → u.typ.elem = some e →
          cassaType (zeroInterface e) = .TypeCustom → False := by
        intro u e hu huk hub _ _
        cases hu
        rcases hs2 with h3 | h3
        · exact h3 huk
        · exact hub h3
      by_cases hc : cassaType (some v) = .TypeCustom
      · have hks : v.typ.kind ≠ .slice := by
          rcases hs2 with h3 | h3
          · exact h3
          · exfalso
            have hblob : cassaType (some v) = .TypeBlob := by
              obtain ⟨t, d⟩ := v
              simp only at h3
              subst h3
              rfl
            rw [hblob] at hc
            cases hc
        rw [hp, if_pos hc] at h
        cases hmar : env.Marshal (some v) with
        | none => rw [hmar] at h; simp at h
        | some res =>
          rw [hmar] at h
          simp only [Except.ok.injEq, Prod.mk.injEq, and_true] at h
          subst h
          have hx : stringTypeOf (some v) = .ok ("varchar", none) := by
            rw [stringTypeOf_scalar_path (some v) hm hs, hc]
            rfl
          refine ⟨by rfl, ?_, ?_, ?_, ?_⟩
          · rw [hx]; rfl
          · intro u _ _ _ _
            exact ⟨res, rfl, rfl, hx, by rfl⟩
          · intro u e hu huk hub hue huc
            exact (hnoslice u e hu huk hub hue huc).elim
          · exact Or.inr (Or.inl ⟨v, rfl, hks, hm2, hc⟩)
      · rw [hp, if_neg hc] at h
        simp only [Except.ok.injEq, Prod.mk.injEq, and_true] at h
        subst h
        refine ⟨by rw [hp, if_neg hc], rfl, ?_, ?_, Or.inl rfl⟩
        · intro u _ _ _ huc
          exact absurd huc hc
        · intro u e hu huk hub hue huc
          exact (hnoslice u e hu huk hub hue huc).elim
  · subst hi
    have hp := ProcessValue_slice env v elemT hk hb he
    by_cases hc : cassaType (zeroInterface elemT) = .TypeCustom
    · rw [hp, if_pos hc] at h
      cases hl : ProcessValue.loop env elemT v.data.elems with
      | none => rw [hl] at h; simp at h
      | some result =>
        rw [hl] at h
        simp only [Except.ok.injEq, Prod.mk.injEq, and_true] at h
        subst h
        have hx : stringTypeOf (some v) = .ok ("list<varchar>", none) := by
          rw [stringTypeOf_slice v elemT hk hb he, if_pos hc]
          rfl
        refine ⟨by rfl, ?_, ?_, ?_, ?_⟩
        · rw [hx]; rfl
        · intro u hu huk _ _
          cases hu
          exact absurd hk huk
        · intro u e hu _ _ hue _
          cases hu
          rw [he] at hue
          cases hue
          exact ⟨result, hl, rfl, hx, by rfl⟩
        · exact Or.inr (Or.inr ⟨v, elemT, rfl, hk, hb, he, hc⟩)
    · rw [hp, if_neg hc] at h
      simp only [Except.ok.injEq, Prod.mk.injEq, and_true] at h
      subst h
      refine ⟨by rw [hp, if_neg hc], rfl, ?_, ?_, Or.inl rfl⟩
      · intro u hu huk _ _
        cases hu
        exact absurd hk huk
      · intro u e hu _ _ hue huc
        cases hu
        rw [he] at hue
        cases hue
        exact absurd huc hc
  · subst hi
    have hp := ProcessValue_map env v hk keyT elemT h1 h2
    by_cases hc : cassaType (zeroInterface keyT) = .TypeCustom ∨
        cassaType (zeroInterface elemT) = .TypeCustom
    · rw [hp, if_pos hc] at h
      simp at h
    · rw [hp, if_neg hc] at h
      simp only [Except.ok.injEq, Prod.mk.injEq, and_true] at h
      subst h
      refine ⟨by rw [hp, if_neg hc], rfl, ?_, ?_, Or.inl rfl⟩
      · intro u hu _ hum _
        cases hu
        exact absurd hk hum
      · intro u e hu huk _ _ _
        cases hu
        rw [hk] at huk
        cases huk

/-- Claim C20 on `[]int8{1, 2}`, a custom slice: the wire value is the `[]string` of the
two JSON texts, which `ProcessValue` returns as it is, and both are declared
`list<varchar>`; and on `int8(5)`, a custom scalar: the wire value is the string `5`,
and both are declared `varchar`. -/
theorem wire_value_keeps_declared_type_witness :
    ProcessValue jsonEnv (some ⟨.slice (.basic .int8), .seq [.int 1, .int 2]⟩)
      = .ok (some ⟨.slice (.basic .string), .seq [.str "1", .str "2"]⟩, none) ∧
    ProcessValue jsonEnv (some ⟨.slice (.basic .string), .seq [.str "1", .str "2"]⟩)
      = .ok (some ⟨.slice (.basic .string), .seq [.str "1", .str "2"]⟩, none) ∧
    stringTypeOf (some ⟨.slice (.basic .int8), .seq [.int 1, .int 2]⟩)
      = .ok ("list<varchar>", none) ∧
    stringTypeOf (some ⟨.slice (.basic .string), .seq [.str "1", .str "2"]⟩)
      = .ok ("list<varchar>", none) ∧
    ProcessValue jsonEnv (some ⟨.basic .int8, .int 5⟩)
      = .ok (some ⟨.basic .string, .str "5"⟩, none) ∧
    stringTypeOf (some ⟨.basic .int8, .int 5⟩) = .ok ("varchar", none) ∧
    stringTypeOf (some ⟨.basic .string, .str "5"⟩) = .ok ("varchar", none) := by
  have h : ProcessValue jsonEnv (some ⟨.slice (.basic .int8), .seq [.int 1, .int 2]⟩)
      = .ok (some ⟨.slice (.basic .string), .seq [.str "1", .str "2"]⟩, none) := by rfl
  have g : ProcessValue jsonEnv (some ⟨.basic .int8, .int 5⟩)
      = .ok (some ⟨.basic .string, .str "5"⟩, none) := by rfl
  have h2 := wire_value_keeps_declared_type jsonEnv _ _ h
  have g2 := wire_value_keeps_declared_type jsonEnv _ _ g
  obtain ⟨strs, _, hw, hx1, hw1⟩ := h2.2.2.2.1 _ (.basic .int8) rfl (by decide) (by decide)
    (by rfl) (by rfl)
  obtain ⟨txt, _, gw, gx1, gw1⟩ := g2.2.2.1 _ rfl (by decide) (by decide) (by rfl)
  exact ⟨h, h2.1, hx1, hw1, g, gx1, gw1⟩

namespace reflect

theorem kind_name_string (k : Kind) : k.name = "string" ↔ k = .string := by
  cases k <;> decide

theorem decodeAll_eq_filterMap (env : Env) (fe : GoType) (ds : List Data) :
    MapToStruct.decodeAll env fe ds = ds.filterMap fun d => env.Unmarshal d.text fe := by
  induction ds with
  | nil => rfl
  | cons d rest ih =>
    cases h : env.Unmarshal d.text fe with
    | none => simp [MapToStruct.decodeAll, List.filterMap_cons, h, ih]
    | some tmp => simp [MapToStruct.decodeAll, List.filterMap_cons, h, ih]

theorem assign_decode (env : Env) (T fe : GoType) (d0 dv : Data)
    (hk : T.kind = .slice) (he : T.elem = some fe) (hfe : fe.kind ≠ .string) :
    MapToStruct.assign env ⟨T, d0, true, false⟩ (some ⟨.slice (.basic .string), dv⟩)
      = .ok (none, some (.seq (dv.elems.filterMap fun d => env.Unmarshal d.text fe))) := by
  have hn : T.kind.name = "slice" := (kind_name_slice _).mpr hk
  have h1 : fe ≠ .basic .string := by
    intro h; rw [h] at hfe; exact hfe rfl
  have h2 : ¬ fe.kind.name = (GoType.basic .string).kind.name := by
    intro h
    exact hfe ((kind_name_string _).mp h)
  have h3 : (GoType.slice (.basic .string)).kind.name = "slice" := by decide
  have h4 : (GoType.basic .string).str = "string" := by decide
  simp only [MapToStruct.assign, TypeOf, Option.map_some', hn, h3, and_self, if_true, he,
    GoType.elem, h1, if_false, h2, h4, ne_eq, not_true_eq_false, Option.elim,
    decodeAll_eq_filterMap, RValue.Set, RValue.CanSet, Bool.not_false, Bool.and_self,
    Bool.not_true, Bool.false_eq_true, assignTo, directlyAssignable]

theorem assign_unhandled_slices (env : Env) (structField : RValue) (x : Value)
    (fe ve : GoType) (hk : structField.typ.kind = .slice) (hx : x.typ.kind = .slice)
    (he : structField.typ.elem = some fe) (hv : x.typ.elem = some ve)
    (h1 : fe ≠ ve) (h2 : fe.kind ≠ ve.kind) (h4 : ve.str ≠ "string") :
    MapToStruct.assign env structField (some x) = .ok (none, none) := by
  have hn : structField.typ.kind.name = "slice" := (kind_name_slice _).mpr hk
  have hn2 : x.typ.kind.name = "slice" := (kind_name_slice _).mpr hx
  have h5 : ¬ fe.kind.name = ve.kind.name := by
    intro h
    apply h2
    generalize fe.kind = a at h
    generalize ve.kind = b at h
    cases a <;> cases b <;> first | rfl | exact absurd h (by decide)
  simp only [MapToStruct.assign, TypeOf, Option.map_some', hn, hn2, and_self, if_true, he, hv,
    h1, if_false, h5, h4]

theorem entry_of_assign (env : Env) (st : GoType) (n : Nat) (val : RValue)
    (hv : Shape st n val) (hk : st.kind = .struct) (i : Nat) (key : String)
    (f : StructField) (hf : st.fields[i]? = some f) (hex : f.PkgPath = "")
    (v : Option Value) (dv : Data)
    (hassign : ∀ d0, MapToStruct.assign env ⟨f.Typ, d0, true, false⟩ v = .ok (none, some dv)) :
    MapToStruct.entry env val ⟨key, i⟩ v
      = .ok (none, { val with data := val.data.setField i dv }) := by
  obtain ⟨h1, h2, h3, _⟩ := hv
  have hF : val.Field i = .ok ⟨f.Typ, val.data.field i, true, false⟩ := by
    rw [Field_eq val (h1 ▸ hk) i f (h1 ▸ hf), h2, h3]
    simp [hex]
  simp only [MapToStruct.entry, hF, hassign]

/-- What `MapToStruct` does with an entry whose key is the lowercased exposed key of an
exported field and whose value the branches of the loop body assign as `dv`, whatever
the field held: on a mapping holding the entry the field holds `dv` whenever nil is
returned, and on the mapping of that one entry nil is returned. -/
theorem MapToStruct_sets_of_assign (env : Env) (structMap : List (GoType × structInfo))
    (st : GoType) (fs : List Data) (m : List (String × Option Value))
    (i : Nat) (f : StructField) (v : Option Value) (dv : Data)
    (hc : CacheOK env structMap) (hk : st.kind = .struct) (hnd : (lowerKeys env st).Nodup)
    (hlen : fs.length = st.fields.length)
    (hf : st.fields[i]? = some f) (hex : f.PkgPath = "")
    (hassign : ∀ d0, MapToStruct.assign env ⟨f.Typ, d0, true, false⟩ v = .ok (none, some dv))
    (hkeys : (m.map Prod.fst).Nodup)
    (hmem : (env.ToLower (exposedKey env f), v) ∈ m) :
    (∀ struc2 c2,
      MapToStruct env structMap m (some ⟨.ptr st, .ref (.seq fs)⟩) = (.ok (none, struc2), c2) →
      ∃ fs2, struc2 = some ⟨.ptr st, .ref (.seq fs2)⟩ ∧ fs2.length = fs.length ∧
        fs2[i]? = some dv) ∧
    (MapToStruct env structMap [(env.ToLower (exposedKey env f), v)]
        (some ⟨.ptr st, .ref (.seq fs)⟩)).1
      = .ok (none, some ⟨.ptr st, .ref (.seq (fs.set i dv))⟩) := by
  have hi : Indirect (ValueOf (some ⟨.ptr st, .ref (.seq fs)⟩)) = some ⟨st, .seq fs, true, false⟩ := by
    simp [ValueOf, Indirect, GoType.kind, GoType.elem]
  have hgs := getStructInfo_ok env structMap hc ⟨st, .seq fs, true, false⟩ hk hnd
  have hshape : Shape st fs.length ⟨st, .seq fs, true, false⟩ := ⟨rfl, rfl, rfl, fs, rfl, rfl⟩
  have hhit : mapIndex (metadataOf env st).FieldsMap (env.ToLower (exposedKey env f)) = some ⟨exposedKey env f, i⟩ := by
    have := lookup_hit env st.fields 0 i f hnd hf
    simpa [metadataOf] using this
  constructor
  · intro struc2 c2 hres
    obtain ⟨pre, post, hm, hpre, hpost⟩ := split_at_key m _ _ hkeys hmem
    simp only [MapToStruct, hi, hgs] at hres
    cases hl : MapToStruct.loop env (metadataOf env st) ⟨st, .seq fs, true, false⟩ m with
    | error p => rw [hl] at hres; simp at hres
    | ok r =>
      obtain ⟨err, val2⟩ := r
      rw [hl] at hres
      simp only [Prod.mk.injEq, Except.ok.injEq] at hres
      obtain ⟨⟨herr, hstruc⟩, _⟩ := hres
      subst herr
      rw [hm, loop_append] at hl
      cases hp : MapToStruct.loop env (metadataOf env st) ⟨st, .seq fs, true, false⟩ pre with
      | error p => rw [hp] at hl; cases hl
      | ok r1 =>
        obtain ⟨e1, val1⟩ := r1
        rw [hp] at hl
        cases e1 with
        | some e => simp at hl
        | none =>
          simp only at hl
          obtain ⟨hs1, _⟩ := loop_preserve env st fs.length i f hf pre _ val1 none hshape hpre hp
          have hent := entry_of_assign env st fs.length val1 hs1 hk i (exposedKey env f) f hf hex
            v dv hassign
          simp only [MapToStruct.loop, hhit, hent] at hl
          have hs1b := setField_shape st fs.length val1 hs1 i dv
          obtain ⟨hs2, hfield⟩ := loop_preserve env st fs.length i f hf post _ val2 none hs1b hpost hl
          obtain ⟨_, _, _, fs1, hd1, hl1⟩ := hs1
          obtain ⟨_, _, _, fs2, hd2, hl2⟩ := hs2
          have hil : i < fs.length := by
            rw [hlen]
            by_contra hcon
            rw [List.getElem?_eq_none (by omega)] at hf
            cases hf
          refine ⟨fs2, ?_, hl2, ?_⟩
          · rw [← hstruc]
            simp [writeBack, GoType.kind, hd2]
          · simp only [hd1, hd2] at hfield
            rw [setField_field_same fs1 i dv (by omega)] at hfield
            simp only [Data.field, List.getD] at hfield
            have hi2 : i < fs2.length := by omega
            rw [List.get?_eq_getElem?, List.getElem?_eq_getElem hi2] at hfield
            rw [List.getElem?_eq_getElem hi2]
            simpa using hfield
  · have hent := entry_of_assign env st fs.length ⟨st, .seq fs, true, false⟩ hshape hk i
      (exposedKey env f) f hf hex v dv hassign
    simp only [MapToStruct, hi, hgs, MapToStruct.loop, hhit, hent, writeBack, GoType.kind,
      if_true, Data.setField]

/-- C17, as amended. Partial slice decode: for a pointer to a struct whose type has
pairwise distinct lowercased keys, an exported slice field `f` whose element type is not
of kind string, and a source of type `[]string` under the key that is the lowercased
exposed key of `f`: whenever `MapToStruct` returns nil on a mapping holding that entry,
`f` holds exactly the values JSON-decoded, in source order, from the source strings
that decode into the element type, the failing strings dropped; on the mapping of that
one entry `MapToStruct` does return nil, with every other field as it was; and the
result is never longer than the source. -/
theorem MapToStruct_partial_slice_decode (env : Env) (structMap : List (GoType × structInfo))
    (st : GoType) (fs : List Data) (m : List (String × Option Value))
    (i : Nat) (f : StructField) (fe : GoType) (dv : Data)
    (hc : CacheOK env structMap) (hk : st.kind = .struct) (hnd : (lowerKeys env st).Nodup)
    (hlen : fs.length = st.fields.length)
    (hf : st.fields[i]? = some f) (hex : f.PkgPath = "")
    (hfk : f.Typ.kind = .slice) (hfe : f.Typ.elem = some fe) (hne : fe.kind ≠ .string)
    (hkeys : (m.map Prod.fst).Nodup)
    (hmem : (env.ToLower (exposedKey env f), some ⟨.slice (.basic .string), dv⟩) ∈ m) :
    (∀ struc2 c2,
      MapToStruct env structMap m (some ⟨.ptr st, .ref (.seq fs)⟩) = (.ok (none, struc2), c2) →
      ∃ fs2, struc2 = some ⟨.ptr st, .ref (.seq fs2)⟩ ∧ fs2.length = fs.length ∧
        fs2[i]? = some (.seq (dv.elems.filterMap fun d => env.Unmarshal d.text fe))) ∧
    (MapToStruct env structMap
        [(env.ToLower (exposedKey env f), some ⟨.slice (.basic .string), dv⟩)]
        (some ⟨.ptr st, .ref (.seq fs)⟩)).1
      = .ok (none, some ⟨.ptr st, .ref (.seq
          (fs.set i (.seq (dv.elems.filterMap fun d => env.Unmarshal d.text fe))))⟩) ∧
    (dv.elems.filterMap fun d => env.Unmarshal d.text fe).length ≤ dv.elems.length := by
  have h := MapToStruct_sets_of_assign env structMap st fs m i f
    (some ⟨.slice (.basic .string), dv⟩)
    (.seq (dv.elems.filterMap fun d => env.Unmarshal d.text fe))
    hc hk hnd hlen hf hex (fun d0 => assign_decode env f.Typ fe d0 dv hfk hfe hne) hkeys hmem
  exact ⟨h.1, h.2, List.length_filterMap_le _ _⟩

/-- Claim C17 as amended, on the example of the specification: the target field is a
`[]int` and the source `["1", "not-json", "2"]`; the field is set to `[1, 2]`. -/
theorem MapToStruct_partial_slice_decode_witness :
    (CacheOK jsonEnv [] ∧ rowStruct.kind = .struct ∧ (lowerKeys jsonEnv rowStruct).Nodup) ∧
    (MapToStruct jsonEnv []
        [("xs", some ⟨.slice (.basic .string), .seq [.str "1", .str "not-json", .str "2"]⟩)]
        (some ⟨.ptr rowStruct, .ref (.seq [.nil])⟩)).1
      = .ok (none, some ⟨.ptr rowStruct, .ref (.seq [.seq [.int 1, .int 2]])⟩) :=
  ⟨⟨by decide, by decide, by decide⟩,
    (MapToStruct_partial_slice_decode jsonEnv [] rowStruct [.nil]
      [("xs", some ⟨.slice (.basic .string), .seq [.str "1", .str "not-json", .str "2"]⟩)] 0
      ⟨"Xs", "", "cql:\"xs\"", .slice (.basic .int)⟩ (.basic .int)
      (.seq [.str "1", .str "not-json", .str "2"])
      (by decide) (by decide) (by decide) rfl rfl rfl (by decide) rfl (by decide) (by decide)
      (List.mem_singleton.mpr rfl)).2.1⟩

/-- Claim C17, counterexample: the element type `Name` of the target field is not
`string` but has the kind of `string`, so the branch for slices of the same kind
converts the source strings instead of decoding them: the source of the JSON text of
`a` and of the text `b`, which is not JSON, sets the field to the two strings as they
are, while decoding yields the one string `a`. -/
theorem string_kinded_elements_are_converted_not_decoded :
    nameType ≠ .basic .string ∧
    (MapToStruct jsonEnv []
        [("names", some ⟨.slice (.basic .string), .seq [.str "\"a\"", .str "b"]⟩)]
        (some ⟨.ptr tagsStruct, .ref (.seq [.nil])⟩)).1
      = .ok (none, some ⟨.ptr tagsStruct, .ref (.seq [.seq [.str "\"a\"", .str "b"]])⟩) ∧
    ([Data.str "\"a\"", Data.str "b"].filterMap fun d => jsonEnv.Unmarshal d.text nameType)
      = [Data.str "a"] ∧
    [Data.str "\"a\"", Data.str "b"].length ≠ [Data.str "a"].length :=
  ⟨by decide, by rfl, by rfl, by decide⟩

/-- Claim C16, at the failing input: the target field `Xs` is a `[]int` and the source a
`[]float64`; no branch for slices applies, and `MapToStruct` returns nil with the field
as it was, while a field `Other int` given a `float64` gets the "Please handle these
types" error. -/
theorem unhandled_slice_pair_is_not_reported :
    (MapToStruct plainEnv [] [("xs", some ⟨.slice (.basic .float64), .seq [.float 1]⟩)]
        (some ⟨.ptr rowStruct, .ref (.seq [.nil])⟩)).1
      = .ok (none, some ⟨.ptr rowStruct, .ref (.seq [.nil])⟩) ∧
    (MapToStruct plainEnv [] [("other", some ⟨.basic .float64, .float 1⟩)]
        (some ⟨.ptr docStruct, .ref docStruct.zero⟩)).1
      = .ok (some (.pleaseHandle .int .float64), some ⟨.ptr docStruct, .ref docStruct.zero⟩) :=
  ⟨by rfl, by rfl⟩

end reflect

end gocqltable
